import Mathlib

set_option maxHeartbeats 1000000
set_option maxRecDepth 8000

/-!
Verification development for the PO-extraction core of `src/stream.py`
(JSON Processing Streamlit App, "Advanced PO Extraction v48").

Text is embedded as `List Char`.  The Python standard-library facilities the
core relies on (`unicodedata.normalize("NFKC", ·)`, `unicodedata.category`,
`str.strip`, the `re` module with its Unicode-aware `\d`, `\w`, `\s` and
`\b`, and the `json` module) are modelled by executable Lean functions whose
Unicode tables are finite fragments of the real tables, restricted to the
character ranges this development reasons about; each such table is
documented at its definition.  Everything else is translated line by line
from `src/stream.py`.
-/

/-- Fragment of Python `str.isspace` / `str.strip`'s whitespace set
(`\t \n \x0b \x0c \r \x1c-\x1f space \x85 \xa0    -
        　`). -/
def pyWhitespace (c : Char) : Bool :=
  c = ' ' || c = '\t' || c = '\n' || c = '\r' ||
  decide (c.toNat = 0x0b) || decide (c.toNat = 0x0c) ||
  (decide (0x1c ≤ c.toNat) && decide (c.toNat ≤ 0x1f)) ||
  decide (c.toNat = 0x85) || decide (c.toNat = 0xa0) ||
  decide (c.toNat = 0x1680) ||
  (decide (0x2000 ≤ c.toNat) && decide (c.toNat ≤ 0x200a)) ||
  decide (c.toNat = 0x2028) || decide (c.toNat = 0x2029) ||
  decide (c.toNat = 0x202f) || decide (c.toNat = 0x205f) ||
  decide (c.toNat = 0x3000)

/-- Fragment of Unicode general category Mn (nonspacing combining marks):
combining diacritical marks, Arabic tashkeel and Quranic annotation marks.
Used to model `unicodedata.category(ch) == "Mn"`. -/
def isMn (c : Char) : Bool :=
  let n := c.toNat
  (decide (0x0300 ≤ n) && decide (n ≤ 0x036f)) ||
  (decide (0x0610 ≤ n) && decide (n ≤ 0x061a)) ||
  (decide (0x064b ≤ n) && decide (n ≤ 0x065f)) ||
  decide (n = 0x0670) ||
  (decide (0x06d6 ≤ n) && decide (n ≤ 0x06dc)) ||
  (decide (0x06df ≤ n) && decide (n ≤ 0x06e4)) ||
  decide (n = 0x06e7) || decide (n = 0x06e8) ||
  (decide (0x06ea ≤ n) && decide (n ≤ 0x06ed))

/-- Fragment of Unicode general category Nd (decimal digits), modelling the
character class `\d` of Python's `re` module (which is Unicode-aware by
default): ASCII digits, Arabic-Indic digits, Extended Arabic-Indic digits,
Devanagari digits and Bengali digits. -/
def isDigitRe (c : Char) : Bool :=
  let n := c.toNat
  c.isDigit ||
  (decide (0x0660 ≤ n) && decide (n ≤ 0x0669)) ||
  (decide (0x06f0 ≤ n) && decide (n ≤ 0x06f9)) ||
  (decide (0x0966 ≤ n) && decide (n ≤ 0x096f)) ||
  (decide (0x09e6 ≤ n) && decide (n ≤ 0x09ef))

/-- Fragment of Python `re`'s `\w` (word characters): ASCII alphanumerics
and underscore, the modelled decimal digits, and Arabic letters. -/
def isWordRe (c : Char) : Bool :=
  let n := c.toNat
  c.isAlpha || c = '_' || isDigitRe c ||
  (decide (0x0620 ≤ n) && decide (n ≤ 0x064a)) ||
  decide (n = 0x066e) || decide (n = 0x066f) ||
  (decide (0x0671 ≤ n) && decide (n ≤ 0x06d3)) ||
  decide (n = 0x06d5)

/-- Fragment of Python `re`'s `\s`: same set as `pyWhitespace` plus
the file/group/record/unit separators are already included there. -/
def isSpaceRe (c : Char) : Bool := pyWhitespace c

/-- The translation table `ARABIC_DIGITS = str.maketrans("٠١٢٣٤٥٦٧٨٩۰۱۲۳۴۵۶۷۸۹",
"01234567890123456789")` from `src/stream.py`, as a character map (identity
off the 20 listed characters). -/
def ARABIC_DIGITS (c : Char) : Char :=
  if c = '٠' then '0' else if c = '١' then '1' else if c = '٢' then '2'
  else if c = '٣' then '3' else if c = '٤' then '4' else if c = '٥' then '5'
  else if c = '٦' then '6' else if c = '٧' then '7' else if c = '٨' then '8'
  else if c = '٩' then '9' else if c = '۰' then '0' else if c = '۱' then '1'
  else if c = '۲' then '2' else if c = '۳' then '3' else if c = '۴' then '4'
  else if c = '۵' then '5' else if c = '۶' then '6' else if c = '۷' then '7'
  else if c = '۸' then '8' else if c = '۹' then '9' else c

/-- Is `c` one of the 20 source characters of the `ARABIC_DIGITS` table? -/
def isArabicIndicDigit (c : Char) : Bool :=
  c = '٠' || c = '١' || c = '٢' || c = '٣' || c = '٤' || c = '٥' ||
  c = '٦' || c = '٧' || c = '٨' || c = '٩' || c = '۰' || c = '۱' ||
  c = '۲' || c = '۳' || c = '۴' || c = '۵' || c = '۶' || c = '۷' ||
  c = '۸' || c = '۹'

/-- `BIDI_MARKS` from `src/stream.py`: LRM, RLM, LRE, RLE, PDF, LRO, RLO. -/
def BIDI_MARKS : List Char :=
  [Char.ofNat 0x200e, Char.ofNat 0x200f, Char.ofNat 0x202a,
   Char.ofNat 0x202b, Char.ofNat 0x202c, Char.ofNat 0x202d, Char.ofNat 0x202e]

/-- Is `c` one of the seven bidi control characters of `BIDI_MARKS`? -/
def isBidiMark (c : Char) : Bool := decide (c ∈ BIDI_MARKS)

/-- Fragment of the NFKC compatibility decomposition: no-break space folds
to space, fullwidth colon to ":", fullwidth digits to ASCII digits.
Identity on every other modelled character. -/
def nfkcCompat (c : Char) : List Char :=
  if c.toNat = 0xa0 then [' ']
  else if c = '：' then [':']
  else if c = '０' then ['0'] else if c = '１' then ['1']
  else if c = '２' then ['2'] else if c = '３' then ['3']
  else if c = '４' then ['4'] else if c = '５' then ['5']
  else if c = '６' then ['6'] else if c = '７' then ['7']
  else if c = '８' then ['8'] else if c = '９' then ['9']
  else [c]

/-- Fragment of the NFC canonical composition table: the primary composite
U+09CB (Bengali vowel sign O) is the canonical composition of U+09C7
(Bengali vowel sign E, ccc 0) followed by U+09BE (Bengali vowel sign AA,
ccc 0).  Composition of a starter pair fires exactly when the two
characters are adjacent, which is what `nfkcCompose` implements. -/
def nfkcPair (a b : Char) : Option Char :=
  if a.toNat = 0x9c7 && b.toNat = 0x9be then some (Char.ofNat 0x9cb) else none

/-- Greedy left-to-right canonical composition of adjacent pairs. -/
def nfkcComposeGo : Char → List Char → List Char
  | a, [] => [a]
  | a, b :: r =>
    match nfkcPair a b with
    | some c => nfkcComposeGo c r
    | none => a :: nfkcComposeGo b r

def nfkcCompose : List Char → List Char
  | [] => []
  | a :: r => nfkcComposeGo a r

/-- Model of `unicodedata.normalize("NFKC", s)`: compatibility mapping
followed by canonical composition, over the modelled tables. -/
def nfkcNormalize (s : List Char) : List Char :=
  nfkcCompose (s.flatMap nfkcCompat)

/-- `strip_combining` from `src/stream.py`: remove characters of Unicode
category Mn. -/
def strip_combining (s : List Char) : List Char :=
  s.filter (fun c => !(isMn c))

/-- Python `s.replace(a, b)` for single characters `a`, `b`. -/
def pyReplaceChar (a b : Char) (s : List Char) : List Char :=
  s.map (fun c => if c = a then b else c)

/-- Python `s.replace(a, "")` for a single character `a`. -/
def pyRemoveChar (a : Char) (s : List Char) : List Char :=
  s.filter (fun c => c ≠ a)

def isSpTab (c : Char) : Bool := c = ' ' || c = '\t'

/-- `re.sub(r"[ \t]+", " ", s)`: collapse every run of spaces/tabs to a
single space.  The flag records whether we are inside a run already
emitted as one space. -/
def collapseGo : Bool → List Char → List Char
  | _, [] => []
  | true, c :: r =>
    if isSpTab c then collapseGo true r else c :: collapseGo false r
  | false, c :: r =>
    if isSpTab c then ' ' :: collapseGo true r else c :: collapseGo false r

def collapseSpTab (s : List Char) : List Char := collapseGo false s

/-- Python `s.strip()` (no argument): strip leading and trailing Unicode
whitespace. -/
def pyStrip (s : List Char) : List Char :=
  ((s.dropWhile pyWhitespace).reverse.dropWhile pyWhitespace).reverse

/-- `norm_advanced` from `src/stream.py`: NFKC, strip combining marks,
fold NBSP to space, translate Arabic-Indic digits, delete bidi marks,
fold punctuation variants and brackets, collapse space/tab runs, strip. -/
def norm_advanced (s : List Char) : List Char :=
  if s = [] then []
  else
    pyStrip (collapseSpTab
      (pyReplaceChar ']' ' ' (pyReplaceChar '[' ' '
      (pyReplaceChar ')' ' ' (pyReplaceChar '(' ' '
      (pyReplaceChar 'ـ' ' ' (pyReplaceChar '—' '-'
      (pyReplaceChar '–' '-' (pyReplaceChar '：' ':'
      (BIDI_MARKS.foldl (fun acc ch => pyRemoveChar ch acc)
        ((pyReplaceChar (Char.ofNat 0xa0) ' '
          (strip_combining (nfkcNormalize s))).map ARABIC_DIGITS)))))))))))

/-- The part of the `norm_advanced` pipeline between NFKC and the final
whitespace collapse, as one named function (definitionally equal to the
corresponding subterm of `norm_advanced`; used to keep proof goals small). -/
def normPre (s : List Char) : List Char :=
  pyReplaceChar ']' ' ' (pyReplaceChar '[' ' '
    (pyReplaceChar ')' ' ' (pyReplaceChar '(' ' '
    (pyReplaceChar 'ـ' ' ' (pyReplaceChar '—' '-'
    (pyReplaceChar '–' '-' (pyReplaceChar '：' ':'
    (BIDI_MARKS.foldl (fun acc ch => pyRemoveChar ch acc)
      ((pyReplaceChar (Char.ofNat 0xa0) ' '
        (strip_combining (nfkcNormalize s))).map ARABIC_DIGITS)))))))))

theorem norm_advanced_eq (s : List Char) :
    norm_advanced s = if s = [] then [] else pyStrip (collapseSpTab (normPre s)) := rfl

theorem normPre_eq (s : List Char) :
    normPre s =
      pyReplaceChar ']' ' ' (pyReplaceChar '[' ' '
      (pyReplaceChar ')' ' ' (pyReplaceChar '(' ' '
      (pyReplaceChar 'ـ' ' ' (pyReplaceChar '—' '-'
      (pyReplaceChar '–' '-' (pyReplaceChar '：' ':'
      (BIDI_MARKS.foldl (fun acc ch => pyRemoveChar ch acc)
        ((pyReplaceChar (Char.ofNat 0xa0) ' '
          (strip_combining (nfkcNormalize s))).map ARABIC_DIGITS))))))))) := rfl

attribute [irreducible] normPre

/-!
A small backtracking matcher for the fixed regex patterns of
`src/stream.py`.  Every star/repetition in those patterns ranges over a
single-character class, so a pattern is a flat list of items; alternation
and option recurse into sub-lists.  The one capture the code ever reads,
`match.group(1)`, is in every pattern a mandatory digit repetition
`(\d{4,6})` or `(\d{6})`, modelled by the dedicated item `dgrp` (its `acc`
field accumulates the digits consumed so far and starts out empty in every
pattern below).  Matching follows Python `re.search` semantics: leftmost
starting position wins, and within one position alternatives are tried in
the pattern's preference order (greedy repetitions longest first, lazy ones
shortest first, left alternative first).
-/

inductive Item where
  | cls (p : Char → Bool)
  | rep (p : Char → Bool) (lo hi : Nat)
  | star (p : Char → Bool) (lazy : Bool)
  | alt (xs ys : List Item)
  | opt (xs : List Item)
  | dgrp (lo hi : Nat) (acc : List Char)
  | wb
  | eos

mutual
/-- Structural size of an item (constant on items that never unfold). -/
def isize : Item → Nat
  | .alt xs ys => 1 + msize xs + msize ys
  | .opt xs => 1 + msize xs
  | _ => 1

def msize : List Item → Nat
  | [] => 0
  | i :: k => isize i + msize k
end

/-- Python `\b`: a word boundary between the previous character (none at
the string edge) and the next. -/
def wordBoundary (prev : Option Char) (rest : List Char) : Bool :=
  (match prev with | none => false | some c => isWordRe c) !=
  (match rest with | [] => false | c :: _ => isWordRe c)

/-- Case split on the head of the remaining input (failure on empty). -/
def onHead : List Char → (Char → List Char → Option (Option (List Char))) →
    Option (Option (List Char))
  | [], _ => none
  | c :: r, g => g c r

/-- One backtracking step.  `prev` is the character just before the
current position (for `\b`), `rest` the remaining input.  The result is
`none` on failure, `some cap` on success where `cap` is the value of the
first (and only) capturing group if it participated in the match.
`fuel` only bounds the recursion; `searchGo` supplies enough of it that
the bound is never the reason a match fails (every recursive call strictly
decreases the pair (length of `rest`, `msize` of the item list), and
`msize` never grows along a call chain). -/
def mi : Nat → List Item → Option Char → List Char → Option (Option (List Char))
  | 0, _, _, _ => none
  | _ + 1, [], _, _ => some none
  | f + 1, .cls p :: k, _, rest =>
    onHead rest (fun c r => if p c then mi f k (some c) r else none)
  | f + 1, .wb :: k, prev, rest =>
    if wordBoundary prev rest then mi f k prev rest else none
  | f + 1, .eos :: k, prev, rest =>
    if rest = [] || rest = ['\n'] then mi f k prev rest else none
  | f + 1, .alt xs ys :: k, prev, rest =>
    (mi f (xs ++ k) prev rest).orElse (fun _ => mi f (ys ++ k) prev rest)
  | f + 1, .opt xs :: k, prev, rest =>
    (mi f (xs ++ k) prev rest).orElse (fun _ => mi f k prev rest)
  | f + 1, .star p lzy :: k, prev, rest =>
    cond lzy
      ((mi f k prev rest).orElse (fun _ =>
        onHead rest (fun c r => if p c then mi f (.star p lzy :: k) (some c) r else none)))
      ((onHead rest (fun c r =>
        if p c then mi f (.star p lzy :: k) (some c) r else none)).orElse
        (fun _ => mi f k prev rest))
  | f + 1, .rep p lo hi :: k, prev, rest =>
    (onHead rest (fun c r =>
      if p c && decide (0 < hi) then mi f (.rep p (lo - 1) (hi - 1) :: k) (some c) r
      else none)).orElse
      (fun _ => if lo = 0 then mi f k prev rest else none)
  | f + 1, .dgrp lo hi acc :: k, prev, rest =>
    (onHead rest (fun c r =>
      if isDigitRe c && decide (0 < hi) then
        mi f (.dgrp (lo - 1) (hi - 1) (acc ++ [c]) :: k) (some c) r
      else none)).orElse
      (fun _ => if lo = 0 then (mi f k prev rest).map (fun _ => some acc) else none)

theorem mi_cls (f : Nat) (p : Char → Bool) (k : List Item) (prev : Option Char)
    (rest : List Char) :
    mi (f + 1) (.cls p :: k) prev rest =
      onHead rest (fun c r => if p c then mi f k (some c) r else none) := rfl

theorem mi_wb (f : Nat) (k : List Item) (prev : Option Char) (rest : List Char) :
    mi (f + 1) (.wb :: k) prev rest =
      if wordBoundary prev rest then mi f k prev rest else none := rfl

theorem mi_eos (f : Nat) (k : List Item) (prev : Option Char) (rest : List Char) :
    mi (f + 1) (.eos :: k) prev rest =
      if rest = [] || rest = ['\n'] then mi f k prev rest else none := rfl

theorem mi_alt (f : Nat) (xs ys k : List Item) (prev : Option Char) (rest : List Char) :
    mi (f + 1) (.alt xs ys :: k) prev rest =
      (mi f (xs ++ k) prev rest).orElse (fun _ => mi f (ys ++ k) prev rest) := rfl

theorem mi_opt (f : Nat) (xs k : List Item) (prev : Option Char) (rest : List Char) :
    mi (f + 1) (.opt xs :: k) prev rest =
      (mi f (xs ++ k) prev rest).orElse (fun _ => mi f k prev rest) := rfl

theorem mi_star (f : Nat) (p : Char → Bool) (lzy : Bool) (k : List Item)
    (prev : Option Char) (rest : List Char) :
    mi (f + 1) (.star p lzy :: k) prev rest =
      cond lzy
        ((mi f k prev rest).orElse (fun _ =>
          onHead rest (fun c r => if p c then mi f (.star p lzy :: k) (some c) r else none)))
        ((onHead rest (fun c r =>
          if p c then mi f (.star p lzy :: k) (some c) r else none)).orElse
          (fun _ => mi f k prev rest)) := rfl

theorem mi_rep (f : Nat) (p : Char → Bool) (lo hi : Nat) (k : List Item)
    (prev : Option Char) (rest : List Char) :
    mi (f + 1) (.rep p lo hi :: k) prev rest =
      (onHead rest (fun c r =>
        if p c && decide (0 < hi) then mi f (.rep p (lo - 1) (hi - 1) :: k) (some c) r
        else none)).orElse
        (fun _ => if lo = 0 then mi f k prev rest else none) := rfl

theorem mi_dgrp (f : Nat) (lo hi : Nat) (acc : List Char) (k : List Item)
    (prev : Option Char) (rest : List Char) :
    mi (f + 1) (.dgrp lo hi acc :: k) prev rest =
      (onHead rest (fun c r =>
        if isDigitRe c && decide (0 < hi) then
          mi f (.dgrp (lo - 1) (hi - 1) (acc ++ [c]) :: k) (some c) r
        else none)).orElse
        (fun _ => if lo = 0 then (mi f k prev rest).map (fun _ => some acc) else none) := rfl

/-- Fuel that dominates the depth bound (length of rest + 1) * (msize + 1). -/
def miFuel (its : List Item) (rest : List Char) : Nat :=
  (rest.length + 1) * (msize its + 1) + 1

/-- `re.search`: try to match at each start position, leftmost first. -/
def searchGo (its : List Item) : Option Char → List Char → Option (Option (List Char))
  | prev, rest =>
    match mi (miFuel its rest) its prev rest with
    | some r => some r
    | none =>
      match rest with
      | [] => none
      | c :: r => searchGo its (some c) r

def reSearch (its : List Item) (s : List Char) : Option (Option (List Char)) :=
  searchGo its none s

/-- Case-insensitive single character (Python `re.IGNORECASE`, ASCII part). -/
def lowerAscii (c : Char) : Char :=
  if 'A' ≤ c && c ≤ 'Z' then Char.ofNat (c.toNat + 32) else c

def ci (c : Char) : Item := .cls (fun x => lowerAscii x = lowerAscii c)

def ex (c : Char) : Item := .cls (fun x => x = c)

/-- The class `[ch1 ch2]` (or its negation) as a predicate item. -/
def anyOf (l : List Char) : Item := .cls (fun x => l.contains x)

def sstar : Item := .star isSpaceRe false

/-- `RX_ARABIC_MEALS_NUM = وجبات\s*غذائي[هة]\s+(?:د\.\s*)?(\d{4,6})` (I). -/
def RX_ARABIC_MEALS_NUM : List Item :=
  [ex 'و', ex 'ج', ex 'ب', ex 'ا', ex 'ت', sstar,
   ex 'غ', ex 'ذ', ex 'ا', ex 'ئ', ex 'ي', .cls (fun x => x = 'ه' || x = 'ة'),
   .cls isSpaceRe, sstar,
   .opt [ex 'د', ex '.', sstar],
   .dgrp 4 6 []]

/-- `RX_PO_NUM_COLON = \bPO\s*NUM\s*:\s*(\d{4,6})\b` (I). -/
def RX_PO_NUM_COLON : List Item :=
  [.wb, ci 'P', ci 'O', sstar, ci 'N', ci 'U', ci 'M', sstar, ex ':', sstar,
   .dgrp 4 6 [], .wb]

/-- `RX_PO_FORWARD_SLASH = \bpo\s*/\s*(\d{4,6})\b` (I). -/
def RX_PO_FORWARD_SLASH : List Item :=
  [.wb, ci 'p', ci 'o', sstar, ex '/', sstar, .dgrp 4 6 [], .wb]

/-- `RX_PO_SLASH = \bPO\s*/\s*(\d{4,6})\b` (I). -/
def RX_PO_SLASH : List Item :=
  [.wb, ci 'P', ci 'O', sstar, ex '/', sstar, .dgrp 4 6 [], .wb]

/-- `RX_NUM_CONCAT_DATE = \b(\d{6})\d{1,2}/\d{1,2}/\d{4}\b`. -/
def RX_NUM_CONCAT_DATE : List Item :=
  [.wb, .dgrp 6 6 [], .rep isDigitRe 1 2, ex '/', .rep isDigitRe 1 2, ex '/',
   .rep isDigitRe 4 4, .wb]

/-- `RX_NUM_DATE = \b(\d{4,6})\s+\d{1,2}/\d{1,2}/\d{4}\b`. -/
def RX_NUM_DATE : List Item :=
  [.wb, .dgrp 4 6 [], .cls isSpaceRe, sstar, .rep isDigitRe 1 2, ex '/',
   .rep isDigitRe 1 2, ex '/', .rep isDigitRe 4 4, .wb]

/-- `RX_STANDALONE_6DIGIT = \b(\d{6})\s*$`. -/
def RX_STANDALONE_6DIGIT : List Item :=
  [.wb, .dgrp 6 6 [], sstar, .eos]

/-- `RX_TAXPAYER_NAME_NUM = taxpayer\s*name\s*[:#]?\s*(\d{4,6})` (I). -/
def RX_TAXPAYER_NAME_NUM : List Item :=
  [ci 't', ci 'a', ci 'x', ci 'p', ci 'a', ci 'y', ci 'e', ci 'r', sstar,
   ci 'n', ci 'a', ci 'm', ci 'e', sstar, .opt [anyOf [':', '#']], sstar,
   .dgrp 4 6 []]

/-- `RX_PARENTHESES_NUM_END = \(.*?(\d{4,6})\s*\)$` (`.` excludes newline). -/
def RX_PARENTHESES_NUM_END : List Item :=
  [ex '(', .star (fun c => c ≠ '\n') true, .dgrp 4 6 [], sstar, ex ')', .eos]

/-- `RX_PARENTHESES_NUM = \((?:[^)]*?)(\d{4,6})(?:[^)]*?)\)`. -/
def RX_PARENTHESES_NUM : List Item :=
  [ex '(', .star (fun c => c ≠ ')') true, .dgrp 4 6 [],
   .star (fun c => c ≠ ')') true, ex ')']

/-- `RX_PO_PREFIX`: the pattern `\bpo(?:\s*no\.?| reference)?\s*[:#/\-]?\s*`
then `(\d{4,6})(?:[^\d\s]*)?` then, optionally, `\s*`, a dash or slash,
`\s*(\d{4,6})`, and finally `\b`
(I).  The second, optional `(\d{4,6})` is group 2, which the extraction
never reads, so it is modelled as a plain repetition.  (The source constant
ends in `_PREFIX`; the Lean name is shortened.) -/
def RX_PO_PREF : List Item :=
  [.wb, ci 'p', ci 'o',
   .opt [.alt [sstar, ci 'n', ci 'o', .opt [ex '.']]
              [ex ' ', ci 'r', ci 'e', ci 'f', ci 'e', ci 'r', ci 'e', ci 'n', ci 'c', ci 'e']],
   sstar, .opt [anyOf [':', '#', '/', '-']], sstar,
   .dgrp 4 6 [],
   .opt [.star (fun c => !(isDigitRe c) && !(isSpaceRe c)) false],
   .opt [sstar, anyOf ['-', '/'], sstar, .rep isDigitRe 4 6],
   .wb]

/-- `RX_CODE_ANCHOR_LINE = (?:\bcode\b|كود)\s*[/:\-]?\s*(?:no\.?|number)?\s*(\d{4,6})` (I). -/
def RX_CODE_ANCHOR_LINE : List Item :=
  [.alt [.wb, ci 'c', ci 'o', ci 'd', ci 'e', .wb] [ex 'ك', ex 'و', ex 'د'],
   sstar, .opt [anyOf ['/', ':', '-']], sstar,
   .opt [.alt [ci 'n', ci 'o', .opt [ex '.']] [ci 'n', ci 'u', ci 'm', ci 'b', ci 'e', ci 'r']],
   sstar, .dgrp 4 6 []]

/-- `RX_ARABIC_D_PREFIX = (?:\bد\.?\s*)(\d{4,6})`.  (The source constant
ends in `_PREFIX`; the Lean name is shortened.) -/
def RX_ARABIC_D_PREF : List Item :=
  [.wb, ex 'د', .opt [ex '.'], sstar, .dgrp 4 6 []]

/-- `RX_ARABIC_D_SUFFIX = (\d{4,6})\s*د\.`. -/
def RX_ARABIC_D_SUFFIX : List Item :=
  [.dgrp 4 6 [], sstar, ex 'د', ex '.']

/-- The priority-ordered rule table of `advanced_po_extraction_v48`. -/
def rules : List (List Char × List Item) :=
  [("arabic-meals".data, RX_ARABIC_MEALS_NUM),
   ("po-num-colon".data, RX_PO_NUM_COLON),
   ("po-forward-slash".data, RX_PO_FORWARD_SLASH),
   ("num-concat-date".data, RX_NUM_CONCAT_DATE),
   ("num-date".data, RX_NUM_DATE),
   ("standalone-6digit".data, RX_STANDALONE_6DIGIT),
   ("po-slash".data, RX_PO_SLASH),
   ("taxpayer-name-num".data, RX_TAXPAYER_NAME_NUM),
   ("parentheses-end".data, RX_PARENTHESES_NUM_END),
   ("parentheses".data, RX_PARENTHESES_NUM),
   ("po-prefix".data, RX_PO_PREF),
   ("code-anchor".data, RX_CODE_ANCHOR_LINE),
   ("arabic-d-prefix".data, RX_ARABIC_D_PREF),
   ("arabic-d-suffix".data, RX_ARABIC_D_SUFFIX)]

/-- First-match-wins over the rule table. -/
def firstRule : List (List Char × List Item) → List Char → Option (List Char × Option (List Char))
  | [], _ => none
  | (nm, its) :: rs, n =>
    match reSearch its n with
    | some capo => some (nm, capo)
    | none => firstRule rs n

/-- `advanced_po_extraction_v48` from `src/stream.py`.  In every rule the
capturing group is mandatory, so the `Option.getD []` default is never
reached on a match (proved below); it mirrors `match.group(1)`. -/
def advanced_po_extraction_v48 (text : List Char) : List Char × List Char × List Char :=
  if text = [] then ([], [], "no PO found".data)
  else
    match firstRule rules (norm_advanced text) with
    | some (nm, capo) => (capo.getD [], "json (".data ++ nm ++ ")".data, [])
    | none => ([], [], "no PO found".data)

/-!  Soundness of the capturing group: in every rule of the table the
group is a mandatory `(\d{lo,hi})` with `4 ≤ lo`, `hi ≤ 6`, so a match
always produces a capture of 4 to 6 modelled decimal digits. -/

mutual
/-- Every `dgrp` state in the item can only complete with a capture of
4–6 digits. -/
def goodI : Item → Bool
  | .dgrp lo hi acc =>
    acc.all isDigitRe && decide (4 ≤ acc.length + lo) &&
    decide (acc.length + hi ≤ 6) && decide (lo ≤ hi)
  | .alt xs ys => goodL xs && goodL ys
  | .opt xs => goodL xs
  | .cls _ => true
  | .rep _ _ _ => true
  | .star _ _ => true
  | .wb => true
  | .eos => true

def goodL : List Item → Bool
  | [] => true
  | i :: k => goodI i && goodL k
end

mutual
/-- A successful match of the item list is certain to have passed through
a capturing group. -/
def certI : Item → Bool
  | .dgrp _ _ _ => true
  | .alt xs ys => certL xs && certL ys
  | .opt _ => false
  | .cls _ => false
  | .rep _ _ _ => false
  | .star _ _ => false
  | .wb => false
  | .eos => false

def certL : List Item → Bool
  | [] => false
  | i :: k => certI i || certL k
end

theorem goodL_append (xs ys : List Item) :
    goodL (xs ++ ys) = (goodL xs && goodL ys) := by
  induction xs with
  | nil => simp [goodL]
  | cons i k ih => simp [goodL, ih, Bool.and_assoc]

theorem certL_append (xs ys : List Item) :
    certL (xs ++ ys) = (certL xs || certL ys) := by
  induction xs with
  | nil => simp [certL]
  | cons i k ih => simp [certL, ih, Bool.or_assoc]

theorem orElse_eq_some {α : Type} {a : Option α} {b : Unit → Option α} {r : α}
    (h : a.orElse b = some r) : a = some r ∨ (a = none ∧ b () = some r) := by
  cases a with
  | none => right; exact ⟨rfl, h⟩
  | some v => left; exact h

theorem goodL_cons_dgrp {lo hi : Nat} {acc : List Char} {k : List Item}
    (h1 : acc.all isDigitRe = true) (h2 : 4 ≤ acc.length + lo)
    (h3 : acc.length + hi ≤ 6) (h4 : lo ≤ hi) (hk : goodL k = true) :
    goodL (.dgrp lo hi acc :: k) = true := by
  rw [goodL, goodI, h1, hk, decide_eq_true h2, decide_eq_true h3, decide_eq_true h4]
  rfl

theorem mi_cap_good : ∀ (f : Nat) (its : List Item) (prev : Option Char)
    (rest : List Char) (r : Option (List Char)) (cap : List Char),
    goodL its = true → mi f its prev rest = some r → r = some cap →
    cap.all isDigitRe = true ∧ 4 ≤ cap.length ∧ cap.length ≤ 6 := by
  intro f
  induction f with
  | zero => intro its prev rest r cap _ hm; simp [mi] at hm
  | succ f ih =>
    intro its prev rest r cap hg hm hr
    cases its with
    | nil =>
      simp only [mi, Option.some.injEq] at hm
      subst hm; cases hr
    | cons it k =>
      rw [goodL] at hg
      simp only [Bool.and_eq_true] at hg
      obtain ⟨hgi, hgk⟩ := hg
      cases it with
      | cls p =>
        first
        | rw [mi_cls] at hm | rw [mi_wb] at hm | rw [mi_eos] at hm
        | rw [mi_alt] at hm | rw [mi_opt] at hm | rw [mi_star] at hm
        | rw [mi_rep] at hm | rw [mi_dgrp] at hm
        cases rest with
        | nil => simp only [onHead] at hm; exact Option.noConfusion hm
        | cons c rest' =>
          simp only [onHead] at hm
          by_cases hp : p c = true
          · rw [if_pos hp] at hm; exact ih _ _ _ _ _ hgk hm hr
          · rw [if_neg hp] at hm; exact Option.noConfusion hm
      | wb =>
        first
        | rw [mi_cls] at hm | rw [mi_wb] at hm | rw [mi_eos] at hm
        | rw [mi_alt] at hm | rw [mi_opt] at hm | rw [mi_star] at hm
        | rw [mi_rep] at hm | rw [mi_dgrp] at hm
        by_cases hb : wordBoundary prev rest = true
        · rw [if_pos hb] at hm; exact ih _ _ _ _ _ hgk hm hr
        · rw [if_neg hb] at hm; exact Option.noConfusion hm
      | eos =>
        first
        | rw [mi_cls] at hm | rw [mi_wb] at hm | rw [mi_eos] at hm
        | rw [mi_alt] at hm | rw [mi_opt] at hm | rw [mi_star] at hm
        | rw [mi_rep] at hm | rw [mi_dgrp] at hm
        by_cases hb : (rest = [] || rest = ['\n']) = true
        · rw [if_pos hb] at hm; exact ih _ _ _ _ _ hgk hm hr
        · rw [if_neg hb] at hm; exact Option.noConfusion hm
      | alt xs ys =>
        first
        | rw [mi_cls] at hm | rw [mi_wb] at hm | rw [mi_eos] at hm
        | rw [mi_alt] at hm | rw [mi_opt] at hm | rw [mi_star] at hm
        | rw [mi_rep] at hm | rw [mi_dgrp] at hm
        rw [goodI] at hgi
        simp only [Bool.and_eq_true] at hgi
        rcases orElse_eq_some hm with h | ⟨_, h⟩
        · refine ih _ _ _ _ _ ?_ h hr
          rw [goodL_append, hgi.1, hgk]; rfl
        · refine ih _ _ _ _ _ ?_ h hr
          rw [goodL_append, hgi.2, hgk]; rfl
      | opt xs =>
        first
        | rw [mi_cls] at hm | rw [mi_wb] at hm | rw [mi_eos] at hm
        | rw [mi_alt] at hm | rw [mi_opt] at hm | rw [mi_star] at hm
        | rw [mi_rep] at hm | rw [mi_dgrp] at hm
        rw [goodI] at hgi
        rcases orElse_eq_some hm with h | ⟨_, h⟩
        · refine ih _ _ _ _ _ ?_ h hr
          rw [goodL_append, hgi, hgk]; rfl
        · exact ih _ _ _ _ _ hgk h hr
      | star p lzy =>
        have hgs : goodL (Item.star p lzy :: k) = true := by
          rw [goodL, goodI, hgk]; rfl
        first
        | rw [mi_cls] at hm | rw [mi_wb] at hm | rw [mi_eos] at hm
        | rw [mi_alt] at hm | rw [mi_opt] at hm | rw [mi_star] at hm
        | rw [mi_rep] at hm | rw [mi_dgrp] at hm
        cases lzy with
        | true =>
          rw [cond_true] at hm
          rcases orElse_eq_some hm with h | ⟨_, h⟩
          · exact ih _ _ _ _ _ hgk h hr
          · cases rest with
            | nil => simp only [onHead] at h; exact Option.noConfusion h
            | cons c rest' =>
              simp only [onHead] at h
              by_cases hp : p c = true
              · rw [if_pos hp] at h; exact ih _ _ _ _ _ hgs h hr
              · rw [if_neg hp] at h; exact Option.noConfusion h
        | false =>
          rw [cond_false] at hm
          rcases orElse_eq_some hm with h | ⟨_, h⟩
          · cases rest with
            | nil => simp only [onHead] at h; exact Option.noConfusion h
            | cons c rest' =>
              simp only [onHead] at h
              by_cases hp : p c = true
              · rw [if_pos hp] at h; exact ih _ _ _ _ _ hgs h hr
              · rw [if_neg hp] at h; exact Option.noConfusion h
          · exact ih _ _ _ _ _ hgk h hr
      | rep p lo hi =>
        first
        | rw [mi_cls] at hm | rw [mi_wb] at hm | rw [mi_eos] at hm
        | rw [mi_alt] at hm | rw [mi_opt] at hm | rw [mi_star] at hm
        | rw [mi_rep] at hm | rw [mi_dgrp] at hm
        rcases orElse_eq_some hm with h | ⟨_, h⟩
        · cases rest with
          | nil => simp only [onHead] at h; exact Option.noConfusion h
          | cons c rest' =>
            simp only [onHead] at h
            by_cases hp : (p c && decide (0 < hi)) = true
            · rw [if_pos hp] at h
              refine ih _ _ _ _ _ ?_ h hr
              rw [goodL, goodI, hgk]; rfl
            · rw [if_neg hp] at h; exact Option.noConfusion h
        · by_cases hlo : lo = 0
          · rw [if_pos hlo] at h; exact ih _ _ _ _ _ hgk h hr
          · rw [if_neg hlo] at h; exact Option.noConfusion h
      | dgrp lo hi acc =>
        rw [goodI] at hgi
        simp only [Bool.and_eq_true, decide_eq_true_eq] at hgi
        obtain ⟨⟨⟨hall, h4⟩, h6⟩, hlh⟩ := hgi
        first
        | rw [mi_cls] at hm | rw [mi_wb] at hm | rw [mi_eos] at hm
        | rw [mi_alt] at hm | rw [mi_opt] at hm | rw [mi_star] at hm
        | rw [mi_rep] at hm | rw [mi_dgrp] at hm
        rcases orElse_eq_some hm with h | ⟨_, h⟩
        · cases rest with
          | nil => simp only [onHead] at h; exact Option.noConfusion h
          | cons c rest' =>
            simp only [onHead] at h
            by_cases hp : (isDigitRe c && decide (0 < hi)) = true
            · rw [if_pos hp] at h
              simp only [Bool.and_eq_true, decide_eq_true_eq] at hp
              refine ih _ _ _ _ _ (goodL_cons_dgrp ?_ ?_ ?_ ?_ hgk) h hr
              · rw [List.all_append, hall, List.all_cons, List.all_nil, hp.1]; rfl
              · simp only [List.length_append, List.length_cons, List.length_nil]; omega
              · simp only [List.length_append, List.length_cons, List.length_nil]; omega
              · omega
            · rw [if_neg hp] at h; exact Option.noConfusion h
        · by_cases hlo : lo = 0
          · rw [if_pos hlo] at h
            rcases Option.map_eq_some'.mp h with ⟨r0, _, hrr⟩
            rw [← hrr] at hr
            cases hr
            subst hlo
            exact ⟨hall, by omega, by omega⟩
          · rw [if_neg hlo] at h; exact Option.noConfusion h

theorem mi_cap_sure : ∀ (f : Nat) (its : List Item) (prev : Option Char)
    (rest : List Char) (r : Option (List Char)),
    certL its = true → mi f its prev rest = some r →
    ∃ cap, r = some cap := by
  intro f
  induction f with
  | zero => intro its prev rest r _ hm; simp [mi] at hm
  | succ f ih =>
    intro its prev rest r hc hm
    cases its with
    | nil => rw [certL] at hc; cases hc
    | cons it k =>
      rw [certL] at hc
      cases it with
      | cls p =>
        rw [certI] at hc
        simp only [Bool.false_or] at hc
        first
        | rw [mi_cls] at hm | rw [mi_wb] at hm | rw [mi_eos] at hm
        | rw [mi_alt] at hm | rw [mi_opt] at hm | rw [mi_star] at hm
        | rw [mi_rep] at hm | rw [mi_dgrp] at hm
        cases rest with
        | nil => simp only [onHead] at hm; exact Option.noConfusion hm
        | cons c rest' =>
          simp only [onHead] at hm
          by_cases hp : p c = true
          · rw [if_pos hp] at hm; exact ih _ _ _ _ hc hm
          · rw [if_neg hp] at hm; exact Option.noConfusion hm
      | wb =>
        rw [certI] at hc
        simp only [Bool.false_or] at hc
        first
        | rw [mi_cls] at hm | rw [mi_wb] at hm | rw [mi_eos] at hm
        | rw [mi_alt] at hm | rw [mi_opt] at hm | rw [mi_star] at hm
        | rw [mi_rep] at hm | rw [mi_dgrp] at hm
        by_cases hb : wordBoundary prev rest = true
        · rw [if_pos hb] at hm; exact ih _ _ _ _ hc hm
        · rw [if_neg hb] at hm; exact Option.noConfusion hm
      | eos =>
        rw [certI] at hc
        simp only [Bool.false_or] at hc
        first
        | rw [mi_cls] at hm | rw [mi_wb] at hm | rw [mi_eos] at hm
        | rw [mi_alt] at hm | rw [mi_opt] at hm | rw [mi_star] at hm
        | rw [mi_rep] at hm | rw [mi_dgrp] at hm
        by_cases hb : (rest = [] || rest = ['\n']) = true
        · rw [if_pos hb] at hm; exact ih _ _ _ _ hc hm
        · rw [if_neg hb] at hm; exact Option.noConfusion hm
      | alt xs ys =>
        rw [certI] at hc
        simp only [Bool.or_eq_true, Bool.and_eq_true] at hc
        first
        | rw [mi_cls] at hm | rw [mi_wb] at hm | rw [mi_eos] at hm
        | rw [mi_alt] at hm | rw [mi_opt] at hm | rw [mi_star] at hm
        | rw [mi_rep] at hm | rw [mi_dgrp] at hm
        rcases orElse_eq_some hm with h | ⟨_, h⟩
        · refine ih _ _ _ _ ?_ h
          rw [certL_append]
          rcases hc with ⟨h1, _⟩ | h2
          · rw [h1]; rfl
          · rw [h2]; simp
        · refine ih _ _ _ _ ?_ h
          rw [certL_append]
          rcases hc with ⟨_, h1⟩ | h2
          · rw [h1]; rfl
          · rw [h2]; simp
      | opt xs =>
        rw [certI] at hc
        simp only [Bool.false_or] at hc
        first
        | rw [mi_cls] at hm | rw [mi_wb] at hm | rw [mi_eos] at hm
        | rw [mi_alt] at hm | rw [mi_opt] at hm | rw [mi_star] at hm
        | rw [mi_rep] at hm | rw [mi_dgrp] at hm
        rcases orElse_eq_some hm with h | ⟨_, h⟩
        · refine ih _ _ _ _ ?_ h
          rw [certL_append, hc]; simp
        · exact ih _ _ _ _ hc h
      | star p lzy =>
        rw [certI] at hc
        simp only [Bool.false_or] at hc
        have hcs : certL (Item.star p lzy :: k) = true := by
          rw [certL, certI, hc]; rfl
        first
        | rw [mi_cls] at hm | rw [mi_wb] at hm | rw [mi_eos] at hm
        | rw [mi_alt] at hm | rw [mi_opt] at hm | rw [mi_star] at hm
        | rw [mi_rep] at hm | rw [mi_dgrp] at hm
        cases lzy with
        | true =>
          rw [cond_true] at hm
          rcases orElse_eq_some hm with h | ⟨_, h⟩
          · exact ih _ _ _ _ hc h
          · cases rest with
            | nil => simp only [onHead] at h; exact Option.noConfusion h
            | cons c rest' =>
              simp only [onHead] at h
              by_cases hp : p c = true
              · rw [if_pos hp] at h; exact ih _ _ _ _ hcs h
              · rw [if_neg hp] at h; exact Option.noConfusion h
        | false =>
          rw [cond_false] at hm
          rcases orElse_eq_some hm with h | ⟨_, h⟩
          · cases rest with
            | nil => simp only [onHead] at h; exact Option.noConfusion h
            | cons c rest' =>
              simp only [onHead] at h
              by_cases hp : p c = true
              · rw [if_pos hp] at h; exact ih _ _ _ _ hcs h
              · rw [if_neg hp] at h; exact Option.noConfusion h
          · exact ih _ _ _ _ hc h
      | rep p lo hi =>
        rw [certI] at hc
        simp only [Bool.false_or] at hc
        first
        | rw [mi_cls] at hm | rw [mi_wb] at hm | rw [mi_eos] at hm
        | rw [mi_alt] at hm | rw [mi_opt] at hm | rw [mi_star] at hm
        | rw [mi_rep] at hm | rw [mi_dgrp] at hm
        rcases orElse_eq_some hm with h | ⟨_, h⟩
        · cases rest with
          | nil => simp only [onHead] at h; exact Option.noConfusion h
          | cons c rest' =>
            simp only [onHead] at h
            by_cases hp : (p c && decide (0 < hi)) = true
            · rw [if_pos hp] at h
              refine ih _ _ _ _ ?_ h
              rw [certL, certI, hc]; rfl
            · rw [if_neg hp] at h; exact Option.noConfusion h
        · by_cases hlo : lo = 0
          · rw [if_pos hlo] at h; exact ih _ _ _ _ hc h
          · rw [if_neg hlo] at h; exact Option.noConfusion h
      | dgrp lo hi acc =>
        first
        | rw [mi_cls] at hm | rw [mi_wb] at hm | rw [mi_eos] at hm
        | rw [mi_alt] at hm | rw [mi_opt] at hm | rw [mi_star] at hm
        | rw [mi_rep] at hm | rw [mi_dgrp] at hm
        rcases orElse_eq_some hm with h | ⟨_, h⟩
        · cases rest with
          | nil => simp only [onHead] at h; exact Option.noConfusion h
          | cons c rest' =>
            simp only [onHead] at h
            by_cases hp : (isDigitRe c && decide (0 < hi)) = true
            · rw [if_pos hp] at h
              refine ih _ _ _ _ ?_ h
              rw [certL, certI]; rfl
            · rw [if_neg hp] at h; exact Option.noConfusion h
        · by_cases hlo : lo = 0
          · rw [if_pos hlo] at h
            rcases Option.map_eq_some'.mp h with ⟨r0, _, hrr⟩
            exact ⟨acc, hrr.symm⟩
          · rw [if_neg hlo] at h; exact Option.noConfusion h

theorem searchGo_cap (its : List Item) (hg : goodL its = true)
    (hc : certL its = true) :
    ∀ (rest : List Char) (prev : Option Char) (r : Option (List Char)),
    searchGo its prev rest = some r →
    ∃ cap, r = some cap ∧ cap.all isDigitRe = true ∧ 4 ≤ cap.length ∧
      cap.length ≤ 6 := by
  intro rest
  induction rest with
  | nil =>
    intro prev r h
    rw [searchGo] at h
    cases hmi : mi (miFuel its []) its prev [] with
    | some r0 =>
      rw [hmi] at h
      simp only [Option.some.injEq] at h
      subst h
      obtain ⟨cap, hcap⟩ := mi_cap_sure _ _ _ _ _ hc hmi
      exact ⟨cap, hcap, mi_cap_good _ _ _ _ _ cap hg hmi hcap⟩
    | none => rw [hmi] at h; exact Option.noConfusion h
  | cons c cs ih =>
    intro prev r h
    rw [searchGo] at h
    cases hmi : mi (miFuel its (c :: cs)) its prev (c :: cs) with
    | some r0 =>
      rw [hmi] at h
      simp only [Option.some.injEq] at h
      subst h
      obtain ⟨cap, hcap⟩ := mi_cap_sure _ _ _ _ _ hc hmi
      exact ⟨cap, hcap, mi_cap_good _ _ _ _ _ cap hg hmi hcap⟩
    | none => rw [hmi] at h; exact ih (some c) r h

theorem reSearch_cap {its : List Item} {s : List Char} {r : Option (List Char)}
    (hg : goodL its = true) (hc : certL its = true) (h : reSearch its s = some r) :
    ∃ cap, r = some cap ∧ cap.all isDigitRe = true ∧ 4 ≤ cap.length ∧
      cap.length ≤ 6 :=
  searchGo_cap its hg hc s none r h

theorem firstRule_none : ∀ (l : List (List Char × List Item)) (n : List Char),
    firstRule l n = none → ∀ p ∈ l, reSearch p.2 n = none := by
  intro l
  induction l with
  | nil => intro n _ p hp; cases hp
  | cons q rs ih =>
    intro n h p hp
    obtain ⟨nm, its⟩ := q
    rw [firstRule] at h
    cases hs : reSearch its n with
    | some c => rw [hs] at h; exact Option.noConfusion h
    | none =>
      rw [hs] at h
      rcases List.mem_cons.mp hp with rfl | hmem
      · exact hs
      · exact ih n h p hmem

theorem firstRule_some : ∀ (l : List (List Char × List Item)) (n nm : List Char)
    (capo : Option (List Char)), firstRule l n = some (nm, capo) →
    ∃ l1 its l2, l = l1 ++ (nm, its) :: l2 ∧ reSearch its n = some capo ∧
      ∀ p ∈ l1, reSearch p.2 n = none := by
  intro l
  induction l with
  | nil => intro n nm capo h; rw [firstRule] at h; exact Option.noConfusion h
  | cons q rs ih =>
    intro n nm capo h
    obtain ⟨nm', its'⟩ := q
    rw [firstRule] at h
    cases hs : reSearch its' n with
    | some c =>
      rw [hs] at h
      simp only [Option.some.injEq, Prod.mk.injEq] at h
      obtain ⟨rfl, rfl⟩ := h
      exact ⟨[], its', rs, rfl, hs, by intro p hp; cases hp⟩
    | none =>
      rw [hs] at h
      obtain ⟨l1, its, l2, hdec, hsearch, hnone⟩ := ih n nm capo h
      refine ⟨(nm', its') :: l1, its, l2, by rw [hdec]; rfl, hsearch, ?_⟩
      intro p hp
      rcases List.mem_cons.mp hp with rfl | hmem
      · exact hs
      · exact hnone p hmem

theorem rules_good : rules.all (fun p => goodL p.2 && certL p.2) = true := by decide

theorem rules_good_mem {p : List Char × List Item} (hp : p ∈ rules) :
    goodL p.2 = true ∧ certL p.2 = true := by
  have := List.all_eq_true.mp rules_good p hp
  simpa using this

theorem mi_cls_mem : ∀ (f : Nat) (p : Char → Bool) (k : List Item)
    (prev : Option Char) (rest : List Char) (r : Option (List Char)),
    mi f (.cls p :: k) prev rest = some r → ∃ c ∈ rest, p c = true := by
  intro f
  cases f with
  | zero => intro p k prev rest r h; simp [mi] at h
  | succ f =>
    intro p k prev rest r h
    rw [mi_cls] at h
    cases rest with
    | nil => simp only [onHead] at h; exact Option.noConfusion h
    | cons c rest' =>
      simp only [onHead] at h
      by_cases hp : p c = true
      · exact ⟨c, List.mem_cons_self c rest', hp⟩
      · rw [if_neg hp] at h; exact Option.noConfusion h

theorem searchGo_cls_mem (p : Char → Bool) (k : List Item) :
    ∀ (rest : List Char) (prev : Option Char) (r : Option (List Char)),
    searchGo (.cls p :: k) prev rest = some r → ∃ c ∈ rest, p c = true := by
  intro rest
  induction rest with
  | nil =>
    intro prev r h
    rw [searchGo] at h
    cases hmi : mi (miFuel (.cls p :: k) []) (.cls p :: k) prev [] with
    | some r0 => exact mi_cls_mem _ _ _ _ _ _ hmi
    | none => rw [hmi] at h; exact Option.noConfusion h
  | cons c cs ih =>
    intro prev r h
    rw [searchGo] at h
    cases hmi : mi (miFuel (.cls p :: k) (c :: cs)) (.cls p :: k) prev (c :: cs) with
    | some r0 => exact mi_cls_mem _ _ _ _ _ _ hmi
    | none =>
      rw [hmi] at h
      obtain ⟨c', hc', hp⟩ := ih (some c) r h
      exact ⟨c', List.mem_cons_of_mem c hc', hp⟩

/-!  Characters that can never occur in the output of `norm_advanced`:
combining marks (stripped), Arabic-Indic digits (translated), bidi marks
(deleted), NBSP and the folded punctuation/bracket characters (replaced),
and tab (collapsed into a space). -/

def badChar (c : Char) : Bool :=
  isMn c || isArabicIndicDigit c || isBidiMark c ||
  decide (c = Char.ofNat 0xa0) || c = '：' || c = '–' || c = '—' || c = 'ـ' ||
  c = '(' || c = ')' || c = '[' || c = ']' || c = '\t'

/-- The digit-translation table either acts as the identity (on characters
outside its 20-character domain) or produces an ASCII digit. -/
theorem AR_cases (d : Char) :
    (ARABIC_DIGITS d = d ∧ isArabicIndicDigit d = false) ∨
    (isArabicIndicDigit d = true ∧
      ARABIC_DIGITS d ∈ ['0', '1', '2', '3', '4', '5', '6', '7', '8', '9']) := by
  by_cases h1 : d = '٠'
  · subst h1; right; decide
  by_cases h2 : d = '١'
  · subst h2; right; decide
  by_cases h3 : d = '٢'
  · subst h3; right; decide
  by_cases h4 : d = '٣'
  · subst h4; right; decide
  by_cases h5 : d = '٤'
  · subst h5; right; decide
  by_cases h6 : d = '٥'
  · subst h6; right; decide
  by_cases h7 : d = '٦'
  · subst h7; right; decide
  by_cases h8 : d = '٧'
  · subst h8; right; decide
  by_cases h9 : d = '٨'
  · subst h9; right; decide
  by_cases h10 : d = '٩'
  · subst h10; right; decide
  by_cases h11 : d = '۰'
  · subst h11; right; decide
  by_cases h12 : d = '۱'
  · subst h12; right; decide
  by_cases h13 : d = '۲'
  · subst h13; right; decide
  by_cases h14 : d = '۳'
  · subst h14; right; decide
  by_cases h15 : d = '۴'
  · subst h15; right; decide
  by_cases h16 : d = '۵'
  · subst h16; right; decide
  by_cases h17 : d = '۶'
  · subst h17; right; decide
  by_cases h18 : d = '۷'
  · subst h18; right; decide
  by_cases h19 : d = '۸'
  · subst h19; right; decide
  by_cases h20 : d = '۹'
  · subst h20; right; decide
  left
  have hAR : ARABIC_DIGITS d = d := by
    unfold ARABIC_DIGITS
    rw [if_neg h1, if_neg h2, if_neg h3, if_neg h4, if_neg h5, if_neg h6, if_neg h7, if_neg h8, if_neg h9, if_neg h10, if_neg h11, if_neg h12, if_neg h13, if_neg h14, if_neg h15, if_neg h16, if_neg h17, if_neg h18, if_neg h19, if_neg h20]
  refine ⟨hAR, ?_⟩
  unfold isArabicIndicDigit
  rw [decide_eq_false h1, decide_eq_false h2, decide_eq_false h3, decide_eq_false h4, decide_eq_false h5, decide_eq_false h6, decide_eq_false h7, decide_eq_false h8, decide_eq_false h9, decide_eq_false h10, decide_eq_false h11, decide_eq_false h12, decide_eq_false h13, decide_eq_false h14, decide_eq_false h15, decide_eq_false h16, decide_eq_false h17, decide_eq_false h18, decide_eq_false h19, decide_eq_false h20]
  rfl

theorem mem_pyStrip {c : Char} {s : List Char} (h : c ∈ pyStrip s) : c ∈ s := by
  rw [pyStrip, List.mem_reverse] at h
  have h2 := (List.dropWhile_suffix pyWhitespace).subset h
  rw [List.mem_reverse] at h2
  exact (List.dropWhile_suffix pyWhitespace).subset h2

theorem collapseGo_nil (b : Bool) : collapseGo b [] = [] := by cases b <;> rfl

theorem collapseGo_true_cons (d : Char) (r : List Char) :
    collapseGo true (d :: r) =
      if isSpTab d then collapseGo true r else d :: collapseGo false r := rfl

theorem collapseGo_false_cons (d : Char) (r : List Char) :
    collapseGo false (d :: r) =
      if isSpTab d then ' ' :: collapseGo true r else d :: collapseGo false r := rfl

theorem mem_collapseGo {c : Char} : ∀ (b : Bool) (s : List Char),
    c ∈ collapseGo b s → c = ' ' ∨ (c ∈ s ∧ isSpTab c = false) := by
  intro b s
  induction s generalizing b with
  | nil => intro h; rw [collapseGo_nil] at h; cases h
  | cons d r ih =>
    intro h
    by_cases hd : isSpTab d = true
    · cases b with
      | true =>
        rw [collapseGo_true_cons, if_pos hd] at h
        rcases ih true h with h' | ⟨h1, h2⟩
        · exact Or.inl h'
        · exact Or.inr ⟨List.mem_cons_of_mem _ h1, h2⟩
      | false =>
        rw [collapseGo_false_cons, if_pos hd] at h
        rcases List.mem_cons.mp h with rfl | h'
        · exact Or.inl rfl
        · rcases ih true h' with h'' | ⟨h1, h2⟩
          · exact Or.inl h''
          · exact Or.inr ⟨List.mem_cons_of_mem _ h1, h2⟩
    · have hb : collapseGo b (d :: r) = d :: collapseGo false r := by
        cases b with
        | true => rw [collapseGo_true_cons, if_neg hd]
        | false => rw [collapseGo_false_cons, if_neg hd]
      rw [hb] at h
      rcases List.mem_cons.mp h with rfl | h'
      · refine Or.inr ⟨List.mem_cons_self _ _, ?_⟩
        simpa using hd
      · rcases ih false h' with h'' | ⟨h1, h2⟩
        · exact Or.inl h''
        · exact Or.inr ⟨List.mem_cons_of_mem _ h1, h2⟩

theorem mem_pyReplaceChar {c a b : Char} {s : List Char}
    (h : c ∈ pyReplaceChar a b s) : c = b ∨ (c ∈ s ∧ c ≠ a) := by
  rw [pyReplaceChar] at h
  obtain ⟨d, hd, hdc⟩ := List.mem_map.mp h
  by_cases hda : d = a
  · rw [if_pos hda] at hdc; left; exact hdc.symm
  · rw [if_neg hda] at hdc; right; rw [← hdc]; exact ⟨hd, hda⟩

theorem mem_removeFold {c : Char} : ∀ (l : List Char) (s : List Char),
    c ∈ l.foldl (fun acc ch => pyRemoveChar ch acc) s →
    c ∈ s ∧ ∀ b ∈ l, c ≠ b := by
  intro l
  induction l with
  | nil => intro s h; exact ⟨h, by intro b hb; cases hb⟩
  | cons ch l' ih =>
    intro s h
    rw [List.foldl_cons] at h
    obtain ⟨h1, h2⟩ := ih _ h
    rw [pyRemoveChar, List.mem_filter] at h1
    obtain ⟨h1s, h1ne⟩ := h1
    refine ⟨h1s, ?_⟩
    intro b hb
    rcases List.mem_cons.mp hb with rfl | hb'
    · simpa using h1ne
    · exact h2 b hb'

theorem mem_strip_combining {c : Char} {s : List Char}
    (h : c ∈ strip_combining s) : isMn c = false ∧ c ∈ s := by
  rw [strip_combining, List.mem_filter] at h
  exact ⟨by simpa using h.2, h.1⟩

/-- Master membership lemma: no character of the output of `norm_advanced`
is a bad character. -/
theorem norm_badChar (s : List Char) : ∀ c ∈ norm_advanced s, badChar c = false := by
  intro c hc
  by_cases hs : s = []
  · rw [norm_advanced, if_pos hs] at hc; cases hc
  · rw [norm_advanced, if_neg hs] at hc
    have hc1 := mem_pyStrip hc
    rcases mem_collapseGo false _ hc1 with rfl | ⟨hc2, htab⟩
    · decide
    · rcases mem_pyReplaceChar hc2 with rfl | ⟨hc3, hne1⟩
      · decide
      rcases mem_pyReplaceChar hc3 with rfl | ⟨hc4, hne2⟩
      · decide
      rcases mem_pyReplaceChar hc4 with rfl | ⟨hc5, hne3⟩
      · decide
      rcases mem_pyReplaceChar hc5 with rfl | ⟨hc6, hne4⟩
      · decide
      rcases mem_pyReplaceChar hc6 with rfl | ⟨hc7, hne5⟩
      · decide
      rcases mem_pyReplaceChar hc7 with rfl | ⟨hc8, hne6⟩
      · decide
      rcases mem_pyReplaceChar hc8 with rfl | ⟨hc9, hne7⟩
      · decide
      rcases mem_pyReplaceChar hc9 with rfl | ⟨hc10, hne8⟩
      · decide
      obtain ⟨hc11, hnb⟩ := mem_removeFold _ _ hc10
      obtain ⟨d, hd, hcd⟩ := List.mem_map.mp hc11
      subst hcd
      have htab' : ¬(ARABIC_DIGITS d = '\t') := by
        intro he; rw [he] at htab; exact absurd htab (by simp [isSpTab])
      have hnb' : ¬(ARABIC_DIGITS d ∈ BIDI_MARKS) := by
        intro he; exact hnb _ he rfl
      rcases AR_cases d with ⟨heq, hnar⟩ | ⟨_, hdig⟩
      · rw [heq] at hne1 hne2 hne3 hne4 hne5 hne6 hne7 hne8 htab' hnb' ⊢
        rcases mem_pyReplaceChar hd with rfl | ⟨hd2, hdne⟩
        · decide
        · have hmn := mem_strip_combining hd2
          simp [badChar, isBidiMark, hmn.1, hnar, hnb', hdne, hne1, hne2, hne3,
            hne4, hne5, hne6, hne7, hne8, htab']
      · simp only [List.mem_cons, List.not_mem_nil, or_false] at hdig
        rcases hdig with h | h | h | h | h | h | h | h | h | h <;> rw [h] <;> decide

theorem badChar_all {c : Char} (h : badChar c = false) :
    isMn c = false ∧ isArabicIndicDigit c = false ∧ isBidiMark c = false ∧
    c ≠ Char.ofNat 0xa0 ∧ c ≠ '：' ∧ c ≠ '–' ∧ c ≠ '—' ∧ c ≠ 'ـ' ∧
    c ≠ '(' ∧ c ≠ ')' ∧ c ≠ '[' ∧ c ≠ ']' ∧ c ≠ '\t' := by
  rw [badChar] at h
  simp only [Bool.or_eq_false_iff, decide_eq_false_iff_not] at h
  obtain ⟨⟨⟨⟨⟨⟨⟨⟨⟨⟨⟨⟨hA, hB⟩, hC⟩, hD⟩, hE⟩, hF⟩, hG⟩, hH⟩, hI⟩, hJ⟩, hK⟩, hL⟩,
    hM⟩ := h
  exact ⟨hA, hB, hC, hD, hE, hF, hG, hH, hI, hJ, hK, hL, hM⟩

/-!  The collapsed output never contains two adjacent space/tab characters,
and stripping keeps that property. -/

def noRun (a b : Char) : Prop := ¬(isSpTab a = true ∧ isSpTab b = true)

theorem noRun_symm {a b : Char} (h : noRun a b) : noRun b a := by
  intro ⟨h1, h2⟩; exact h ⟨h2, h1⟩

theorem collapseGo_true_head : ∀ (s : List Char) (c : Char),
    (collapseGo true s).head? = some c → isSpTab c = false := by
  intro s
  induction s with
  | nil => intro c h; rw [collapseGo_nil] at h; cases h
  | cons d r ih =>
    intro c h
    by_cases hd : isSpTab d = true
    · rw [collapseGo_true_cons, if_pos hd] at h; exact ih c h
    · rw [collapseGo_true_cons, if_neg hd] at h
      simp only [List.head?_cons, Option.some.injEq] at h
      subst h; simpa using hd

theorem chain_collapseGo : ∀ (b : Bool) (s : List Char),
    List.Chain' noRun (collapseGo b s) := by
  intro b s
  induction s generalizing b with
  | nil => rw [collapseGo_nil]; exact List.chain'_nil
  | cons d r ih =>
    cases b with
    | true =>
      by_cases hd : isSpTab d = true
      · rw [collapseGo_true_cons, if_pos hd]; exact ih true
      · rw [collapseGo_true_cons, if_neg hd]
        refine List.chain'_cons'.mpr ⟨?_, ih false⟩
        intro y _ hcon
        exact absurd hcon.1 (by simpa using hd)
    | false =>
      by_cases hd : isSpTab d = true
      · rw [collapseGo_false_cons, if_pos hd]
        refine List.chain'_cons'.mpr ⟨?_, ih true⟩
        intro y hy hcon
        have := collapseGo_true_head r y (Option.mem_def.mp hy)
        rw [this] at hcon
        exact absurd hcon.2 (by simp)
      · rw [collapseGo_false_cons, if_neg hd]
        refine List.chain'_cons'.mpr ⟨?_, ih false⟩
        intro y _ hcon
        exact absurd hcon.1 (by simpa using hd)

theorem dropWhile_head_not {p : Char → Bool} : ∀ (l : List Char) (c : Char),
    (l.dropWhile p).head? = some c → p c = false := by
  intro l
  induction l with
  | nil => intro c h; cases h
  | cons d r ih =>
    intro c h
    by_cases hd : p d = true
    · rw [List.dropWhile_cons_of_pos hd] at h; exact ih c h
    · rw [List.dropWhile_cons_of_neg hd] at h
      simp only [List.head?_cons, Option.some.injEq] at h
      subst h; simpa using hd

theorem chain_pyStrip {l : List Char} (h : List.Chain' noRun l) :
    List.Chain' noRun (pyStrip l) := by
  rw [pyStrip]
  have h1 := h.suffix (List.dropWhile_suffix pyWhitespace)
  have h2 := List.chain'_reverse.mpr (h1.imp (fun _ _ hab => noRun_symm hab))
  have h3 := h2.suffix (List.dropWhile_suffix pyWhitespace)
  exact List.chain'_reverse.mpr (h3.imp (fun _ _ hab => noRun_symm hab))

/-- The output of `norm_advanced` never has two adjacent space/tab
characters. -/
theorem norm_chain (s : List Char) :
    List.Chain' noRun (norm_advanced s) := by
  rw [norm_advanced_eq]
  split
  · exact List.chain'_nil
  · exact chain_pyStrip (chain_collapseGo false (normPre s))

theorem norm_eq_of_ne_nil {s : List Char} (hs : s ≠ []) :
    norm_advanced s = pyStrip (collapseSpTab (normPre s)) := by
  rw [norm_advanced_eq, if_neg hs]

/-- The output of `norm_advanced` never starts with whitespace. -/
theorem norm_head (s : List Char) (c : Char)
    (h : (norm_advanced s).head? = some c) : pyWhitespace c = false := by
  by_cases hs : s = []
  · rw [norm_advanced, if_pos hs] at h; cases h
  · rw [norm_advanced, if_neg hs, pyStrip] at h
    rw [List.head?_reverse] at h
    set x := collapseSpTab _ with hx
    set y := (x.dropWhile pyWhitespace).reverse with hy
    obtain ⟨pre, hpre⟩ := List.dropWhile_suffix (l := y) pyWhitespace
    have hne : y.dropWhile pyWhitespace ≠ [] := by
      intro he; rw [he] at h; cases h
    have hy2 : y.getLast? = some c := by
      rw [← hpre, List.getLast?_append_of_ne_nil _ hne, h]
    rw [hy, List.getLast?_reverse] at hy2
    exact dropWhile_head_not _ _ hy2

/-- The output of `norm_advanced` never ends with whitespace. -/
theorem norm_last (s : List Char) (c : Char)
    (h : (norm_advanced s).getLast? = some c) : pyWhitespace c = false := by
  by_cases hs : s = []
  · rw [norm_advanced, if_pos hs] at h; cases h
  · rw [norm_advanced, if_neg hs, pyStrip] at h
    rw [List.getLast?_reverse] at h
    exact dropWhile_head_not _ _ h

/-!  Claims C3 and C4 about the normalizer. -/

/-- Claim C3 counterexample: the Devanagari digit U+0966 ("०") is a Unicode
decimal-digit character that `norm_advanced` leaves in place (NFKC keeps it
and it is outside the `ARABIC_DIGITS` translation table), so the output can
contain a decimal-digit character that is not a Latin digit 0-9. -/
theorem C3_counterexample :
    norm_advanced "०".data = "०".data ∧
    (norm_advanced "०".data).any (fun c => isDigitRe c && !(c.isDigit)) = true := by
  constructor
  · decide
  · decide

/-- Claim C3 (amended): for every input string, the output of
`norm_advanced` contains no Arabic-Indic or Extended Arabic-Indic digit (the
20 characters of the translation table), no combining mark of category Mn,
none of the seven bidi control characters, no run of two or more consecutive
space/tab characters, and no leading or trailing whitespace.  (The original
claim's stronger digit clause — every decimal digit of the output is a Latin
digit 0-9 — fails on Devanagari and similar digits, see
`C3_counterexample`.) -/
theorem C3_normalized_invariant (s : List Char) :
    (∀ c ∈ norm_advanced s, isArabicIndicDigit c = false) ∧
    (∀ c ∈ norm_advanced s, isMn c = false) ∧
    (∀ c ∈ norm_advanced s, isBidiMark c = false) ∧
    List.Chain' noRun (norm_advanced s) ∧
    (∀ c, (norm_advanced s).head? = some c → pyWhitespace c = false) ∧
    (∀ c, (norm_advanced s).getLast? = some c → pyWhitespace c = false) := by
  refine ⟨?_, ?_, ?_, norm_chain s, norm_head s, norm_last s⟩
  · intro c hc; exact (badChar_all (norm_badChar s c hc)).2.1
  · intro c hc; exact (badChar_all (norm_badChar s c hc)).1
  · intro c hc; exact (badChar_all (norm_badChar s c hc)).2.2.1

theorem C3_normalized_invariant_witness : pyWhitespace '1' = false :=
  (C3_normalized_invariant "١٢٣".data).2.2.2.2.1 '1' (by decide)

/-!  Stability lemmas: on text already containing no bad characters, no
space/tab runs and no surrounding whitespace, every step of the pipeline
after NFKC acts as the identity. -/

theorem mapStable {f : Char → Char} : ∀ {l : List Char},
    (∀ c ∈ l, f c = c) → l.map f = l := by
  intro l
  induction l with
  | nil => intro _; rfl
  | cons d r ih =>
    intro h
    rw [List.map_cons, h d (List.mem_cons_self _ _),
      ih (fun c hc => h c (List.mem_cons_of_mem _ hc))]

theorem filterStable {p : Char → Bool} : ∀ {l : List Char},
    (∀ c ∈ l, p c = true) → l.filter p = l := by
  intro l
  induction l with
  | nil => intro _; rfl
  | cons d r ih =>
    intro h
    rw [List.filter_cons, if_pos (h d (List.mem_cons_self _ _)),
      ih (fun c hc => h c (List.mem_cons_of_mem _ hc))]

theorem pyReplaceCharStable {a b : Char} {l : List Char}
    (h : ∀ c ∈ l, c ≠ a) : pyReplaceChar a b l = l := by
  rw [pyReplaceChar]
  exact mapStable (fun c hc => if_neg (h c hc))

theorem stripCombiningStable {l : List Char}
    (h : ∀ c ∈ l, isMn c = false) : strip_combining l = l := by
  rw [strip_combining]
  exact filterStable (fun c hc => by rw [h c hc]; rfl)

theorem AR_id {c : Char} (h : isArabicIndicDigit c = false) :
    ARABIC_DIGITS c = c := by
  rcases AR_cases c with ⟨h1, _⟩ | ⟨h1, _⟩
  · exact h1
  · rw [h] at h1; cases h1

theorem removeFoldStable : ∀ (marks l : List Char),
    (∀ c ∈ l, ∀ b ∈ marks, c ≠ b) →
    marks.foldl (fun acc ch => pyRemoveChar ch acc) l = l := by
  intro marks
  induction marks with
  | nil => intro l _; rfl
  | cons ch m ih =>
    intro l h
    rw [List.foldl_cons]
    have h1 : pyRemoveChar ch l = l := by
      rw [pyRemoveChar]
      exact filterStable (fun c hc => by
        have := h c hc ch (List.mem_cons_self _ _)
        simpa using this)
    rw [h1]
    exact ih l (fun c hc b hb => h c hc b (List.mem_cons_of_mem _ hb))

theorem collapseGo_true_eq_false {l : List Char}
    (h : ∀ c, l.head? = some c → isSpTab c = false) :
    collapseGo true l = collapseGo false l := by
  cases l with
  | nil => rfl
  | cons d r =>
    have hd := h d rfl
    rw [collapseGo_true_cons, collapseGo_false_cons, if_neg (by simp [hd]),
      if_neg (by simp [hd])]

theorem collapseGoStable : ∀ (l : List Char), (∀ c ∈ l, c ≠ '\t') →
    List.Chain' noRun l → collapseGo false l = l := by
  intro l
  induction l with
  | nil => intro _ _; rfl
  | cons d r ih =>
    intro htab hch
    by_cases hd : isSpTab d = true
    · have hd' : d = ' ' := by
        rcases (by simpa [isSpTab] using hd : d = ' ' ∨ d = '\t') with h' | h'
        · exact h'
        · exact absurd h' (htab d (List.mem_cons_self _ _))
      rw [collapseGo_false_cons, if_pos hd]
      have hhead : ∀ c, r.head? = some c → isSpTab c = false := by
        intro c hc
        cases r with
        | nil => cases hc
        | cons e r' =>
          simp only [List.head?_cons, Option.some.injEq] at hc
          subst hc
          have hne := (List.chain'_cons.mp hch).1
          by_contra hce
          exact hne ⟨hd, by simpa using hce⟩
      rw [collapseGo_true_eq_false hhead,
        ih (fun c hc => htab c (List.mem_cons_of_mem _ hc)) hch.tail, hd']
    · rw [collapseGo_false_cons, if_neg hd,
        ih (fun c hc => htab c (List.mem_cons_of_mem _ hc)) hch.tail]

theorem dropWhileStable {p : Char → Bool} {l : List Char}
    (h : ∀ c, l.head? = some c → p c = false) : l.dropWhile p = l := by
  cases l with
  | nil => rfl
  | cons d r =>
    exact List.dropWhile_cons_of_neg (by rw [h d rfl]; exact Bool.false_ne_true)

theorem pyStripStable {l : List Char}
    (hh : ∀ c, l.head? = some c → pyWhitespace c = false)
    (hl : ∀ c, l.getLast? = some c → pyWhitespace c = false) :
    pyStrip l = l := by
  rw [pyStrip, dropWhileStable hh,
    dropWhileStable (fun c hc => hl c (by rwa [List.head?_reverse] at hc)),
    List.reverse_reverse]

/-- Claim C4 counterexample: normalization is not idempotent.  On the input
U+09C7 U+0301 U+09BE, the first pass strips the combining acute accent
(category Mn), leaving the Bengali starter pair U+09C7 U+09BE which NFKC
recombines into U+09CB on the second pass, so the second application
changes the string again. -/
theorem C4_counterexample :
    norm_advanced (norm_advanced
      [Char.ofNat 0x9c7, Char.ofNat 0x301, Char.ofNat 0x9be]) ≠
    norm_advanced [Char.ofNat 0x9c7, Char.ofNat 0x301, Char.ofNat 0x9be] := by
  decide

/-- Claim C4 (amended): normalization is idempotent on every input whose
normalized form is NFKC-stable (the unrestricted statement fails when
stripping combining marks makes the result recombinable, see
`C4_counterexample`). -/
theorem C4_norm_idempotent (s : List Char)
    (h : nfkcNormalize (norm_advanced s) = norm_advanced s) :
    norm_advanced (norm_advanced s) = norm_advanced s := by
  by_cases hn : norm_advanced s = []
  · rw [hn]; rfl
  · rw [norm_eq_of_ne_nil hn]
    have hbad := norm_badChar s
    have h2 : strip_combining (norm_advanced s) = norm_advanced s :=
      stripCombiningStable (fun c hc => (badChar_all (hbad c hc)).1)
    have h3 : pyReplaceChar (Char.ofNat 0xa0) ' ' (norm_advanced s) =
        norm_advanced s :=
      pyReplaceCharStable (fun c hc => (badChar_all (hbad c hc)).2.2.2.1)
    have h4 : (norm_advanced s).map ARABIC_DIGITS = norm_advanced s :=
      mapStable (fun c hc => AR_id (badChar_all (hbad c hc)).2.1)
    have h5 : BIDI_MARKS.foldl (fun acc ch => pyRemoveChar ch acc)
        (norm_advanced s) = norm_advanced s := by
      refine removeFoldStable _ _ (fun c hc b hb => ?_)
      have hbm := (badChar_all (hbad c hc)).2.2.1
      intro he
      subst he
      rw [isBidiMark, decide_eq_true hb] at hbm
      cases hbm
    have h6 : pyReplaceChar '：' ':' (norm_advanced s) = norm_advanced s :=
      pyReplaceCharStable (fun c hc => (badChar_all (hbad c hc)).2.2.2.2.1)
    have h7 : pyReplaceChar '–' '-' (norm_advanced s) = norm_advanced s :=
      pyReplaceCharStable (fun c hc => (badChar_all (hbad c hc)).2.2.2.2.2.1)
    have h8 : pyReplaceChar '—' '-' (norm_advanced s) = norm_advanced s :=
      pyReplaceCharStable (fun c hc => (badChar_all (hbad c hc)).2.2.2.2.2.2.1)
    have h9 : pyReplaceChar 'ـ' ' ' (norm_advanced s) = norm_advanced s :=
      pyReplaceCharStable (fun c hc => (badChar_all (hbad c hc)).2.2.2.2.2.2.2.1)
    have h10 : pyReplaceChar '(' ' ' (norm_advanced s) = norm_advanced s :=
      pyReplaceCharStable
        (fun c hc => (badChar_all (hbad c hc)).2.2.2.2.2.2.2.2.1)
    have h11 : pyReplaceChar ')' ' ' (norm_advanced s) = norm_advanced s :=
      pyReplaceCharStable
        (fun c hc => (badChar_all (hbad c hc)).2.2.2.2.2.2.2.2.2.1)
    have h12 : pyReplaceChar '[' ' ' (norm_advanced s) = norm_advanced s :=
      pyReplaceCharStable
        (fun c hc => (badChar_all (hbad c hc)).2.2.2.2.2.2.2.2.2.2.1)
    have h13 : pyReplaceChar ']' ' ' (norm_advanced s) = norm_advanced s :=
      pyReplaceCharStable
        (fun c hc => (badChar_all (hbad c hc)).2.2.2.2.2.2.2.2.2.2.2.1)
    have hpre : normPre (norm_advanced s) = norm_advanced s := by
      rw [normPre_eq, h, h2, h3, h4, h5, h6, h7, h8, h9, h10, h11, h12, h13]
    have h14 : collapseSpTab (norm_advanced s) = norm_advanced s := by
      rw [collapseSpTab]
      exact collapseGoStable _
        (fun c hc => (badChar_all (hbad c hc)).2.2.2.2.2.2.2.2.2.2.2.2)
        (norm_chain s)
    rw [hpre, h14, pyStripStable (norm_head s) (norm_last s)]

theorem C4_norm_idempotent_witness :
    norm_advanced (norm_advanced "abc 123".data) = norm_advanced "abc 123".data :=
  C4_norm_idempotent "abc 123".data (by decide)

/-!  Claims C1, C2, C8 and C9 about the extraction engine. -/

/-- Claim C1 counterexample: on the input made of six Devanagari digits the
extractor succeeds (Python's `\d` matches any Unicode decimal digit and the
normalizer does not translate Devanagari digits), returning a captured
group that does not consist of ASCII digits. -/
theorem C1_counterexample :
    advanced_po_extraction_v48 "०१२३४५".data =
      ("०१२३४५".data, "json (standalone-6digit)".data, []) ∧
    "०१२३४५".data.all Char.isDigit = false := by
  constructor
  · decide
  · decide

/-- Claim C1 (amended): for every input string,
`advanced_po_extraction_v48` returns exactly one of two shapes: the failure
triple `("", "", "no PO found")` (input empty or no rule matches), or
`(cap, "json (" ++ name ++ ")", "")` where `(name, pattern)` is the first
rule in the fixed 14-rule priority order whose pattern matches the
normalized text, no earlier rule matches, and `cap` is the rule's primary
capture group, consisting of 4-6 Unicode decimal digits.  (The original
claim says ASCII digits; that is refuted by `C1_counterexample`.) -/
theorem C1_extraction_shape (text : List Char) :
    advanced_po_extraction_v48 text = ([], [], "no PO found".data)
    ∨ ∃ l1 nm its l2 cap,
        rules = l1 ++ (nm, its) :: l2 ∧
        reSearch its (norm_advanced text) = some (some cap) ∧
        (∀ p ∈ l1, reSearch p.2 (norm_advanced text) = none) ∧
        advanced_po_extraction_v48 text =
          (cap, "json (".data ++ nm ++ ")".data, []) ∧
        cap.all isDigitRe = true ∧ 4 ≤ cap.length ∧ cap.length ≤ 6 := by
  by_cases ht : text = []
  · left; rw [advanced_po_extraction_v48, if_pos ht]
  · cases hf : firstRule rules (norm_advanced text) with
    | none =>
      left
      rw [advanced_po_extraction_v48, if_neg ht, hf]
    | some pr =>
      obtain ⟨nm, capo⟩ := pr
      obtain ⟨l1, its, l2, hdec, hsearch, hnone⟩ := firstRule_some _ _ _ _ hf
      have hmem : (nm, its) ∈ rules := by
        rw [hdec]; exact List.mem_append_right _ (List.mem_cons_self _ _)
      obtain ⟨hg, hc⟩ := rules_good_mem hmem
      obtain ⟨cap, hcapo, hdig, h4, h6⟩ := reSearch_cap hg hc hsearch
      subst hcapo
      right
      refine ⟨l1, nm, its, l2, cap, hdec, hsearch, hnone, ?_, hdig, h4, h6⟩
      rw [advanced_po_extraction_v48, if_neg ht, hf]
      rfl

/-- Claim C2 counterexample: the text "3PO NUM: 7906 173128" contains the
substring "PO NUM: 7906" and an unrelated standalone 6-digit number 173128
at the end, yet extraction returns "173128" via standalone-6digit: the
leading "3" removes the word boundary that `\bPO NUM:` requires, so the
po-num-colon rule does not match at all. -/
theorem C2_counterexample :
    "PO NUM: 7906".data <:+: "3PO NUM: 7906 173128".data ∧
    "173128".data <:+ "3PO NUM: 7906 173128".data ∧
    advanced_po_extraction_v48 "3PO NUM: 7906 173128".data =
      ("173128".data, "json (standalone-6digit)".data, []) := by
  refine ⟨by decide, by decide, by decide⟩

/-- Claim C2 (amended): whenever the po-num-colon pattern matches the
normalized text capturing "7906" and the only earlier rule (arabic-meals)
does not match, extraction returns "7906" with source
"json (po-num-colon)"; in particular the standalone-6digit rule is never
consulted, so an unrelated trailing 6-digit number is never returned.
(Mere presence of the substring "PO NUM: 7906" is not enough, see
`C2_counterexample`.) -/
theorem C2_rule_priority (text : List Char)
    (h1 : reSearch RX_ARABIC_MEALS_NUM (norm_advanced text) = none)
    (h2 : reSearch RX_PO_NUM_COLON (norm_advanced text) =
      some (some "7906".data)) :
    advanced_po_extraction_v48 text =
      ("7906".data, "json (po-num-colon)".data, []) := by
  by_cases ht : text = []
  · rw [ht] at h2
    rw [show norm_advanced [] = [] from rfl] at h2
    exact absurd h2 (by decide)
  · have hfr : firstRule rules (norm_advanced text) =
        some ("po-num-colon".data, some "7906".data) := by
      simp only [rules, firstRule, h1, h2]
    rw [advanced_po_extraction_v48, if_neg ht, hfr]
    rfl

theorem C2_rule_priority_witness :
    advanced_po_extraction_v48 "PO NUM: 7906 note 173128".data =
      ("7906".data, "json (po-num-colon)".data, []) :=
  C2_rule_priority "PO NUM: 7906 note 173128".data (by decide) (by decide)

theorem jsonTag_inj {nm nm' : List Char}
    (h : "json (".data ++ nm ++ ")".data = "json (".data ++ nm' ++ ")".data) :
    nm = nm' :=
  List.append_cancel_left (List.append_cancel_right h)

theorem rules_parenEnd_unique : ∀ its : List Item,
    ("parentheses-end".data, its) ∈ rules → its = RX_PARENTHESES_NUM_END := by
  intro its h
  simp only [rules, List.mem_cons, List.not_mem_nil, or_false,
    Prod.mk.injEq] at h
  rcases h with ⟨h1, h2⟩ | ⟨h1, h2⟩ | ⟨h1, h2⟩ | ⟨h1, h2⟩ | ⟨h1, h2⟩ |
    ⟨h1, h2⟩ | ⟨h1, h2⟩ | ⟨h1, h2⟩ | ⟨h1, h2⟩ | ⟨h1, h2⟩ | ⟨h1, h2⟩ |
    ⟨h1, h2⟩ | ⟨h1, h2⟩ | ⟨h1, h2⟩
  all_goals first | exact h2 | exact absurd h1 (by decide)

theorem rules_paren_unique : ∀ its : List Item,
    ("parentheses".data, its) ∈ rules → its = RX_PARENTHESES_NUM := by
  intro its h
  simp only [rules, List.mem_cons, List.not_mem_nil, or_false,
    Prod.mk.injEq] at h
  rcases h with ⟨h1, h2⟩ | ⟨h1, h2⟩ | ⟨h1, h2⟩ | ⟨h1, h2⟩ | ⟨h1, h2⟩ |
    ⟨h1, h2⟩ | ⟨h1, h2⟩ | ⟨h1, h2⟩ | ⟨h1, h2⟩ | ⟨h1, h2⟩ | ⟨h1, h2⟩ |
    ⟨h1, h2⟩ | ⟨h1, h2⟩ | ⟨h1, h2⟩
  all_goals first | exact h2 | exact absurd h1 (by decide)

/-- Claim C8: the extractor can never report source "json (parentheses-end)"
or "json (parentheses)".  Both patterns require a literal "(" character, but
they are only ever matched against `norm_advanced` output, in which every
"(" and ")" has been replaced by a space. -/
theorem C8_parentheses_unreachable (text : List Char) :
    (advanced_po_extraction_v48 text).2.1 ≠ "json (parentheses-end)".data ∧
    (advanced_po_extraction_v48 text).2.1 ≠ "json (parentheses)".data := by
  by_cases ht : text = []
  · rw [advanced_po_extraction_v48, if_pos ht]
    exact ⟨by decide, by decide⟩
  · cases hf : firstRule rules (norm_advanced text) with
    | none =>
      rw [advanced_po_extraction_v48, if_neg ht, hf]
      exact ⟨by decide, by decide⟩
    | some pr =>
      obtain ⟨nm, capo⟩ := pr
      have hsrc : (advanced_po_extraction_v48 text).2.1 =
          "json (".data ++ nm ++ ")".data := by
        rw [advanced_po_extraction_v48, if_neg ht, hf]
      obtain ⟨l1, its, l2, hdec, hsearch, _⟩ := firstRule_some _ _ _ _ hf
      have hmem : (nm, its) ∈ rules := by
        rw [hdec]; exact List.mem_append_right _ (List.mem_cons_self _ _)
      constructor
      · intro heq
        rw [hsrc] at heq
        have hnm : nm = "parentheses-end".data :=
          jsonTag_inj (heq.trans (by decide))
        subst hnm
        rw [rules_parenEnd_unique its hmem] at hsearch
        obtain ⟨c, hcmem, hcp⟩ := searchGo_cls_mem _ _ _ _ _ hsearch
        have hc : c = '(' := of_decide_eq_true hcp
        subst hc
        exact absurd rfl
          ((badChar_all (norm_badChar text '(' hcmem)).2.2.2.2.2.2.2.2.1)
      · intro heq
        rw [hsrc] at heq
        have hnm : nm = "parentheses".data :=
          jsonTag_inj (heq.trans (by decide))
        subst hnm
        rw [rules_paren_unique its hmem] at hsearch
        obtain ⟨c, hcmem, hcp⟩ := searchGo_cls_mem _ _ _ _ _ hsearch
        have hc : c = '(' := of_decide_eq_true hcp
        subst hc
        exact absurd rfl
          ((badChar_all (norm_badChar text '(' hcmem)).2.2.2.2.2.2.2.2.1)

theorem firstRule_cons_none {nm : List Char} {its : List Item}
    {rs : List (List Char × List Item)} {n : List Char}
    (h : reSearch its n = none) :
    firstRule ((nm, its) :: rs) n = firstRule rs n := by
  rw [firstRule, h]

theorem firstRule_cons_some {nm : List Char} {its : List Item}
    {rs : List (List Char × List Item)} {n : List Char}
    {c : Option (List Char)} (h : reSearch its n = some c) :
    firstRule ((nm, its) :: rs) n = some (nm, c) := by
  rw [firstRule, h]

/-- `RX_PO_SLASH` and `RX_PO_FORWARD_SLASH` compile to the same matcher:
under `re.IGNORECASE`, `\bPO\s*/\s*(\d{4,6})\b` and
`\bpo\s*/\s*(\d{4,6})\b` accept exactly the same texts. -/
theorem RX_PO_SLASH_eq_forward : RX_PO_SLASH = RX_PO_FORWARD_SLASH := rfl

/-- Claim C9: the extractor can never report source "json (po-slash)":
rule 7's pattern `RX_PO_SLASH` is the same matcher as rule 3's
`RX_PO_FORWARD_SLASH` (both case-insensitive), and rule 3 is tried
first, so under first-match-wins rule 7 is never reached with a match. -/
theorem C9_po_slash_unreachable (text : List Char) :
    (advanced_po_extraction_v48 text).2.1 ≠ "json (po-slash)".data := by
  by_cases ht : text = []
  · rw [advanced_po_extraction_v48, if_pos ht]; decide
  · rw [advanced_po_extraction_v48, if_neg ht, rules]
    cases hr1 : reSearch RX_ARABIC_MEALS_NUM (norm_advanced text) with
    | some c1 =>
      rw [firstRule_cons_some hr1]
      show "json (".data ++ "arabic-meals".data ++ ")".data ≠ "json (po-slash)".data
      decide
    | none =>
      rw [firstRule_cons_none hr1]
      cases hr2 : reSearch RX_PO_NUM_COLON (norm_advanced text) with
      | some c2 =>
        rw [firstRule_cons_some hr2]
        show "json (".data ++ "po-num-colon".data ++ ")".data ≠ "json (po-slash)".data
        decide
      | none =>
        rw [firstRule_cons_none hr2]
        cases hr3 : reSearch RX_PO_FORWARD_SLASH (norm_advanced text) with
        | some c3 =>
          rw [firstRule_cons_some hr3]
          show "json (".data ++ "po-forward-slash".data ++ ")".data ≠ "json (po-slash)".data
          decide
        | none =>
          rw [firstRule_cons_none hr3]
          cases hr4 : reSearch RX_NUM_CONCAT_DATE (norm_advanced text) with
          | some c4 =>
            rw [firstRule_cons_some hr4]
            show "json (".data ++ "num-concat-date".data ++ ")".data ≠ "json (po-slash)".data
            decide
          | none =>
            rw [firstRule_cons_none hr4]
            cases hr5 : reSearch RX_NUM_DATE (norm_advanced text) with
            | some c5 =>
              rw [firstRule_cons_some hr5]
              show "json (".data ++ "num-date".data ++ ")".data ≠ "json (po-slash)".data
              decide
            | none =>
              rw [firstRule_cons_none hr5]
              cases hr6 : reSearch RX_STANDALONE_6DIGIT (norm_advanced text) with
              | some c6 =>
                rw [firstRule_cons_some hr6]
                show "json (".data ++ "standalone-6digit".data ++ ")".data ≠ "json (po-slash)".data
                decide
              | none =>
                rw [firstRule_cons_none hr6]
                cases hr7 : reSearch RX_PO_SLASH (norm_advanced text) with
                | some c7 =>
                  rw [RX_PO_SLASH_eq_forward] at hr7
                  rw [hr3] at hr7
                  exact Option.noConfusion hr7
                | none =>
                  rw [firstRule_cons_none hr7]
                  cases hr8 : reSearch RX_TAXPAYER_NAME_NUM (norm_advanced text) with
                  | some c8 =>
                    rw [firstRule_cons_some hr8]
                    show "json (".data ++ "taxpayer-name-num".data ++ ")".data ≠ "json (po-slash)".data
                    decide
                  | none =>
                    rw [firstRule_cons_none hr8]
                    cases hr9 : reSearch RX_PARENTHESES_NUM_END (norm_advanced text) with
                    | some c9 =>
                      rw [firstRule_cons_some hr9]
                      show "json (".data ++ "parentheses-end".data ++ ")".data ≠ "json (po-slash)".data
                      decide
                    | none =>
                      rw [firstRule_cons_none hr9]
                      cases hr10 : reSearch RX_PARENTHESES_NUM (norm_advanced text) with
                      | some c10 =>
                        rw [firstRule_cons_some hr10]
                        show "json (".data ++ "parentheses".data ++ ")".data ≠ "json (po-slash)".data
                        decide
                      | none =>
                        rw [firstRule_cons_none hr10]
                        cases hr11 : reSearch RX_PO_PREF (norm_advanced text) with
                        | some c11 =>
                          rw [firstRule_cons_some hr11]
                          show "json (".data ++ "po-prefix".data ++ ")".data ≠ "json (po-slash)".data
                          decide
                        | none =>
                          rw [firstRule_cons_none hr11]
                          cases hr12 : reSearch RX_CODE_ANCHOR_LINE (norm_advanced text) with
                          | some c12 =>
                            rw [firstRule_cons_some hr12]
                            show "json (".data ++ "code-anchor".data ++ ")".data ≠ "json (po-slash)".data
                            decide
                          | none =>
                            rw [firstRule_cons_none hr12]
                            cases hr13 : reSearch RX_ARABIC_D_PREF (norm_advanced text) with
                            | some c13 =>
                              rw [firstRule_cons_some hr13]
                              show "json (".data ++ "arabic-d-prefix".data ++ ")".data ≠ "json (po-slash)".data
                              decide
                            | none =>
                              rw [firstRule_cons_none hr13]
                              cases hr14 : reSearch RX_ARABIC_D_SUFFIX (norm_advanced text) with
                              | some c14 =>
                                rw [firstRule_cons_some hr14]
                                show "json (".data ++ "arabic-d-suffix".data ++ ")".data ≠ "json (po-slash)".data
                                decide
                              | none =>
                                rw [firstRule_cons_none hr14]
                                rw [firstRule]
                                decide


/-
Part II: the JSON-processing functions of src/stream.py.

Python values reachable from `json.loads` and from the invoice records the
app passes around are modelled by `PyVal`.  A JSON float is kept as its
source token (no claim computes with or prints a float).  Python dicts have
unique keys; `PyVal.dict` carries an association list and lookups take the
first binding, which coincides with dict semantics on unique keys.
-/

inductive PyVal where
  | null : PyVal
  | bool : Bool → PyVal
  | int : Int → PyVal
  | float : List Char → PyVal
  | str : List Char → PyVal
  | list : List PyVal → PyVal
  | dict : List (List Char × PyVal) → PyVal

def isStrVal : PyVal → Bool
  | .str _ => true
  | _ => false

def dictLookup : List (List Char × PyVal) → List Char → Option PyVal
  | [], _ => none
  | (k, v) :: r, key => if k = key then some v else dictLookup r key

def dictGetD (kvs : List (List Char × PyVal)) (key : List Char) (d : PyVal) : PyVal :=
  (dictLookup kvs key).getD d

def pyType : PyVal → List Char
  | .null => "NoneType".data
  | .bool _ => "bool".data
  | .int _ => "int".data
  | .float _ => "float".data
  | .str _ => "str".data
  | .list _ => "list".data
  | .dict _ => "dict".data

def apos : Char := Char.ofNat 39

def inQuotes (s : List Char) : List Char := apos :: s ++ [apos]

def hexChar (n : Nat) : Char :=
  if n < 10 then Char.ofNat (48 + n) else Char.ofNat (87 + n)

def hex2 (n : Nat) : List Char := [hexChar (n / 16 % 16), hexChar (n % 16)]

def intChars (n : Int) : List Char :=
  if n < 0 then '-' :: Nat.toDigits 10 (-n).toNat else Nat.toDigits 10 n.toNat

def strJoin (sep : List Char) : List (List Char) → List Char
  | [] => []
  | [x] => x
  | x :: xs => x ++ sep ++ strJoin sep xs

/- repr() of a Python string: single quotes unless the text holds a single
quote and no double quote; \\ n r t and the chosen quote are escaped, other
control characters as \xNN.  (Python also escapes unprintable characters
above ASCII; no claim prints such a string.) -/
def pyQuoteEsc (q : Char) (c : Char) : List Char :=
  if c = '\\' then ['\\', '\\']
  else if c = q then ['\\', q]
  else if c = '\n' then ['\\', 'n']
  else if c = '\r' then ['\\', 'r']
  else if c = '\t' then ['\\', 't']
  else if c.toNat < 32 || c.toNat = 127 then '\\' :: 'x' :: hex2 c.toNat
  else [c]

def pyQuoteStr (s : List Char) : List Char :=
  let q := if s.contains apos && ! s.contains '"' then '"' else apos
  q :: s.flatMap (pyQuoteEsc q) ++ [q]

mutual

def pySize : PyVal → Nat
  | .list l => pySizeL l + 1
  | .dict kvs => pySizeKV kvs + 1
  | _ => 1

def pySizeL : List PyVal → Nat
  | [] => 0
  | v :: r => pySize v + pySizeL r

def pySizeKV : List (List Char × PyVal) → Nat
  | [] => 0
  | (_, v) :: r => pySize v + pySizeKV r

end

/- str()/repr() of a value.  Fuelled recursion into containers; the fuel
pySize v always exceeds the nesting depth, so the 0-fuel container cases are
never reached. -/
def pyReprF : Nat → PyVal → List Char
  | _, .null => "None".data
  | _, .bool true => "True".data
  | _, .bool false => "False".data
  | _, .int n => intChars n
  | _, .float t => t
  | _, .str s => pyQuoteStr s
  | 0, .list _ => []
  | 0, .dict _ => []
  | Nat.succ f, .list l => '[' :: strJoin ", ".data (l.map (pyReprF f)) ++ [']']
  | Nat.succ f, .dict kvs =>
      Char.ofNat 123 ::
        strJoin ", ".data
          (kvs.map (fun kv => pyQuoteStr kv.1 ++ ": ".data ++ pyReprF f kv.2)) ++
        [Char.ofNat 125]

def pyStr (v : PyVal) : List Char :=
  match v with
  | .str s => s
  | .null => "None".data
  | .bool true => "True".data
  | .bool false => "False".data
  | .int n => intChars n
  | .float t => t
  | w => pyReprF (pySize w) w

/- Substring test, as Python's `needle in haystack` on strings. -/
def isSubstrOf (needle : List Char) : List Char → Bool
  | [] => needle.isEmpty
  | c :: r => needle.isPrefixOf (c :: r) || isSubstrOf needle r

/- `needle in v` for a string needle: dict = key test, list = element
equality, str = substring test; other types raise TypeError. -/
def pyContains (needle : List Char) (v : PyVal) : Except (List Char) Bool :=
  match v with
  | .dict kvs => .ok (kvs.any (fun kv => decide (kv.1 = needle)))
  | .list l =>
      .ok (l.any (fun x => match x with | .str s => decide (s = needle) | _ => false))
  | .str s => .ok (isSubstrOf needle s)
  | w => .error ("argument of type ".data ++ inQuotes (pyType w) ++ " is not iterable".data)

/- `v[key]` for a string key.  str(KeyError(k)) is the repr of k. -/
def pySubscriptStr (v : PyVal) (key : List Char) : Except (List Char) PyVal :=
  match v with
  | .dict kvs =>
      match dictLookup kvs key with
      | some x => .ok x
      | none => .error (pyQuoteStr key)
  | .list _ => .error "list indices must be integers or slices, not str".data
  | .str _ => .error "string indices must be integers".data
  | w => .error (inQuotes (pyType w) ++ " object is not subscriptable".data)

/- `for x in v`: dicts yield their keys, strings their characters. -/
def pyIter (v : PyVal) : Except (List Char) (List PyVal) :=
  match v with
  | .list l => .ok l
  | .dict kvs => .ok (kvs.map (fun kv => PyVal.str kv.1))
  | .str s => .ok (s.map (fun c => PyVal.str [c]))
  | w => .error (inQuotes (pyType w) ++ " object is not iterable".data)

/- `v.get(key, default)`: only dicts have the attribute. -/
def pyGet (v : PyVal) (key : List Char) (dflt : PyVal) : Except (List Char) PyVal :=
  match v with
  | .dict kvs => .ok (dictGetD kvs key dflt)
  | w =>
      .error (inQuotes (pyType w) ++ " object has no attribute ".data ++
        inQuotes "get".data)

/- sep.join(parts): TypeError at the first part that is not a str. -/
def pyJoinGo (sep : List Char) : Nat → List PyVal → Except (List Char) (List Char)
  | _, [] => .ok []
  | i, v :: rest =>
    match v with
    | .str s =>
      match rest with
      | [] => .ok s
      | _ :: _ =>
        match pyJoinGo sep (i + 1) rest with
        | .error e => .error e
        | .ok t => .ok (s ++ sep ++ t)
    | w =>
        .error ("sequence item ".data ++ Nat.toDigits 10 i ++
          ": expected str instance, ".data ++ pyType w ++ " found".data)

def pyJoinE (sep : List Char) (parts : List PyVal) : Except (List Char) (List Char) :=
  pyJoinGo sep 0 parts

/-
json.loads, per the strict decoder of the json module.  Error messages keep
CPython's wording with the position as a character offset ("...: char N");
CPython additionally formats the offset as line and column.  A lone
surrogate escape, which CPython keeps as a surrogate code point, is mapped
to U+FFFD since a Lean Char is a Unicode scalar value; no claim involves
surrogate escapes.
-/

def jWs (c : Char) : Bool := c = ' ' || c = '\t' || c = '\n' || c = '\r'

def jSkip : Nat → List Char → Nat × List Char
  | p, c :: r => if jWs c then jSkip (p + 1) r else (p, c :: r)
  | p, [] => (p, [])

def jErrAt (msg : List Char) (p : Nat) : List Char :=
  msg ++ ": char ".data ++ Nat.toDigits 10 p

def msgExpValue : List Char := "Expecting value".data

def msgPropName : List Char :=
  "Expecting property name enclosed in double quotes".data

def msgExpColon : List Char :=
  "Expecting ".data ++ apos :: ':' :: apos :: " delimiter".data

def msgExpComma : List Char :=
  "Expecting ".data ++ apos :: ',' :: apos :: " delimiter".data

def hexVal (c : Char) : Option Nat :=
  if '0' ≤ c && c ≤ '9' then some (c.toNat - 48)
  else if 'a' ≤ c && c ≤ 'f' then some (c.toNat - 87)
  else if 'A' ≤ c && c ≤ 'F' then some (c.toNat - 55)
  else none

/- The body of a string literal, after its opening quote.  Returns the
decoded text, the position after the closing quote and the unconsumed
input. -/
def jStrGo (p0 : Nat) : Nat → Nat → List Char →
    Except (List Char) (List Char × Nat × List Char)
  | 0, _, _ => .error (jErrAt "Unterminated string starting at".data p0)
  | _ + 1, _, [] => .error (jErrAt "Unterminated string starting at".data p0)
  | _ + 1, p, '"' :: r => .ok ([], p + 1, r)
  | g + 1, p, '\\' :: 'u' :: a :: b :: c :: d :: r =>
    (match hexVal a, hexVal b, hexVal c, hexVal d with
     | some ha, some hb, some hc, some hd =>
       let n := ((ha * 16 + hb) * 16 + hc) * 16 + hd
       if 0xd800 ≤ n && n ≤ 0xdbff then
         match r with
         | '\\' :: 'u' :: a2 :: b2 :: c2 :: d2 :: r2 =>
           (match hexVal a2, hexVal b2, hexVal c2, hexVal d2 with
            | some e1, some e2, some e3, some e4 =>
              let m := ((e1 * 16 + e2) * 16 + e3) * 16 + e4
              if 0xdc00 ≤ m && m ≤ 0xdfff then
                match jStrGo p0 g (p + 12) r2 with
                | .error e => .error e
                | .ok (out, q, t) =>
                  .ok (Char.ofNat (0x10000 + (n - 0xd800) * 0x400 + (m - 0xdc00)) :: out, q, t)
              else
                match jStrGo p0 g (p + 6) r with
                | .error e => .error e
                | .ok (out, q, t) => .ok (Char.ofNat 0xfffd :: out, q, t)
            | _, _, _, _ =>
              match jStrGo p0 g (p + 6) r with
              | .error e => .error e
              | .ok (out, q, t) => .ok (Char.ofNat 0xfffd :: out, q, t))
         | _ =>
           match jStrGo p0 g (p + 6) r with
           | .error e => .error e
           | .ok (out, q, t) => .ok (Char.ofNat 0xfffd :: out, q, t)
       else if 0xdc00 ≤ n && n ≤ 0xdfff then
         match jStrGo p0 g (p + 6) r with
         | .error e => .error e
         | .ok (out, q, t) => .ok (Char.ofNat 0xfffd :: out, q, t)
       else
         match jStrGo p0 g (p + 6) r with
         | .error e => .error e
         | .ok (out, q, t) => .ok (Char.ofNat n :: out, q, t)
     | _, _, _, _ => .error (jErrAt "Invalid \\uXXXX escape".data (p + 2)))
  | g + 1, p, '\\' :: c :: r =>
    (match
       (if c = '"' then some '"'
        else if c = '\\' then some '\\'
        else if c = '/' then some '/'
        else if c = 'b' then some (Char.ofNat 8)
        else if c = 'f' then some (Char.ofNat 12)
        else if c = 'n' then some '\n'
        else if c = 'r' then some '\r'
        else if c = 't' then some '\t'
        else none) with
     | some ch =>
       match jStrGo p0 g (p + 2) r with
       | .error e => .error e
       | .ok (out, q, t) => .ok (ch :: out, q, t)
     | none =>
       .error (jErrAt (if c = 'u' then "Invalid \\uXXXX escape".data
                       else "Invalid \\escape".data) p))
  | _ + 1, _, '\\' :: [] => .error (jErrAt "Unterminated string starting at".data p0)
  | g + 1, p, c :: r =>
    if c.toNat < 0x20 then .error (jErrAt "Invalid control character at".data p)
    else
      match jStrGo p0 g (p + 1) r with
      | .error e => .error e
      | .ok (out, q, t) => .ok (c :: out, q, t)

def digitSpan : List Char → List Char × List Char
  | c :: r =>
    if c.isDigit then
      match digitSpan r with
      | (a, b) => (c :: a, b)
    else ([], c :: r)
  | [] => ([], [])

def jIntTok : List Char → Option (List Char × List Char)
  | '0' :: r => some (['0'], r)
  | c :: r =>
    if c.isDigit then
      match digitSpan r with
      | (a, b) => some (c :: a, b)
    else none
  | [] => none

def jFracTok : List Char → List Char × List Char
  | '.' :: c :: r =>
    if c.isDigit then
      match digitSpan r with
      | (a, b) => ('.' :: c :: a, b)
    else ([], '.' :: c :: r)
  | s => ([], s)

def jExpTok (s : List Char) : List Char × List Char :=
  match s with
  | c :: c2 :: r2 =>
    if (c = 'e' || c = 'E') && c2.isDigit then
      match digitSpan r2 with
      | (a, b) => (c :: c2 :: a, b)
    else if (c = 'e' || c = 'E') && (c2 = '+' || c2 = '-') then
      match r2 with
      | c3 :: r3 =>
        if c3.isDigit then
          match digitSpan r3 with
          | (a, b) => (c :: c2 :: c3 :: a, b)
        else ([], s)
      | [] => ([], s)
    else ([], s)
  | _ => ([], s)

def charsToNat (l : List Char) : Nat :=
  l.foldl (fun n c => n * 10 + (c.toNat - 48)) 0

def jNumFrom (p : Nat) (neg : Bool) (s : List Char) :
    Except (List Char) (PyVal × Nat × List Char) :=
  match jIntTok s with
  | none => .error (jErrAt msgExpValue p)
  | some (ip, r1) =>
    match jFracTok r1 with
    | (fp, r2) =>
      match jExpTok r2 with
      | (ep, r3) =>
        let tok := (if neg then ['-'] else []) ++ ip ++ fp ++ ep
        let value : PyVal :=
          if fp = [] && ep = [] then
            .int (if neg then -(Int.ofNat (charsToNat ip)) else Int.ofNat (charsToNat ip))
          else .float tok
        .ok (value, p + tok.length, r3)

def jNum (p : Nat) (s : List Char) : Except (List Char) (PyVal × Nat × List Char) :=
  match s with
  | '-' :: r =>
    if ("Infinity".data).isPrefixOf r then .ok (.float "-inf".data, p + 9, r.drop 8)
    else jNumFrom p true r
  | _ => jNumFrom p false s

/- Python dict insertion: an existing key keeps its position and takes the
new value, a new key is appended. -/
def insertKey (kvs : List (List Char × PyVal)) (k : List Char) (v : PyVal) :
    List (List Char × PyVal) :=
  if kvs.any (fun kv => decide (kv.1 = k)) then
    kvs.map (fun kv => if kv.1 = k then (k, v) else kv)
  else kvs ++ [(k, v)]

def jLit (tok : List Char) (v : PyVal) (p : Nat) (s : List Char) :
    Except (List Char) (PyVal × Nat × List Char) :=
  if tok.isPrefixOf s then .ok (v, p + tok.length, s.drop tok.length)
  else .error (jErrAt msgExpValue p)

/- Fuelled mutual parser.  Each unit of fuel is spent only after at least one
character of input is consumed, so fuel (length + 2) never runs out. -/
mutual

def jVal : Nat → Nat → List Char → Except (List Char) (PyVal × Nat × List Char)
  | 0, p, _ => .error (jErrAt msgExpValue p)
  | Nat.succ f, p, s =>
    match jSkip p s with
    | (p1, []) => .error (jErrAt msgExpValue p1)
    | (p1, c :: r) =>
      if c = '"' then
        match jStrGo p1 (r.length + 1) (p1 + 1) r with
        | .error e => .error e
        | .ok (cs, p2, r2) => .ok (.str cs, p2, r2)
      else if c = Char.ofNat 123 then
        match jSkip (p1 + 1) r with
        | (p2, c2 :: r2) =>
          if c2 = Char.ofNat 125 then .ok (.dict [], p2 + 1, r2)
          else jMembers f p2 (c2 :: r2) []
        | (p2, []) => jMembers f p2 [] []
      else if c = '[' then
        match jSkip (p1 + 1) r with
        | (p2, c2 :: r2) =>
          if c2 = ']' then .ok (.list [], p2 + 1, r2)
          else jItems f p2 (c2 :: r2) []
        | (p2, []) => .error (jErrAt msgExpValue p2)
      else if c = 't' then jLit "true".data (.bool true) p1 (c :: r)
      else if c = 'f' then jLit "false".data (.bool false) p1 (c :: r)
      else if c = 'n' then jLit "null".data .null p1 (c :: r)
      else if c = 'N' then jLit "NaN".data (.float "nan".data) p1 (c :: r)
      else if c = 'I' then jLit "Infinity".data (.float "inf".data) p1 (c :: r)
      else if c = '-' || c.isDigit then jNum p1 (c :: r)
      else .error (jErrAt msgExpValue p1)

def jMembers : Nat → Nat → List Char → List (List Char × PyVal) →
    Except (List Char) (PyVal × Nat × List Char)
  | 0, p, _, _ => .error (jErrAt msgExpValue p)
  | Nat.succ f, p, s, acc =>
    match s with
    | '"' :: r =>
      (match jStrGo p (r.length + 1) (p + 1) r with
       | .error e => .error e
       | .ok (key, p1, r1) =>
         match jSkip p1 r1 with
         | (p2, c2 :: r2) =>
           if c2 = ':' then
             match jVal f (p2 + 1) r2 with
             | .error e => .error e
             | .ok (v, p3, r3) =>
               match jSkip p3 r3 with
               | (p4, c4 :: r4) =>
                 if c4 = ',' then
                   match jSkip (p4 + 1) r4 with
                   | (p5, r5) => jMembers f p5 r5 (insertKey acc key v)
                 else if c4 = Char.ofNat 125 then
                   .ok (.dict (insertKey acc key v), p4 + 1, r4)
                 else .error (jErrAt msgExpComma p4)
               | (p4, []) => .error (jErrAt msgExpComma p4)
           else .error (jErrAt msgExpColon p2)
         | (p2, []) => .error (jErrAt msgExpColon p2))
    | _ => .error (jErrAt msgPropName p)

def jItems : Nat → Nat → List Char → List PyVal →
    Except (List Char) (PyVal × Nat × List Char)
  | 0, p, _, _ => .error (jErrAt msgExpValue p)
  | Nat.succ f, p, s, acc =>
    match jVal f p s with
    | .error e => .error e
    | .ok (v, p1, r1) =>
      match jSkip p1 r1 with
      | (p2, c2 :: r2) =>
        if c2 = ',' then jItems f (p2 + 1) r2 (acc ++ [v])
        else if c2 = ']' then .ok (.list (acc ++ [v]), p2 + 1, r2)
        else .error (jErrAt msgExpComma p2)
      | (p2, []) => .error (jErrAt msgExpComma p2)

end

def loads (s : List Char) : Except (List Char) PyVal :=
  match jVal (s.length + 2) 0 s with
  | .error e => .error e
  | .ok (v, p, rest) =>
    match jSkip p rest with
    | (_, []) => .ok v
    | (p2, _ :: _) => .error (jErrAt "Extra data".data p2)

/-
extract_po_from_json (src/stream.py:219-255).  The try-body assembles the
text parts; any exception inside it yields ("", "", "extraction error: " +
str(e)).  parse-if-string: a str document value goes through json.loads,
anything else is used as is.
-/

def resolveDoc (v : PyVal) : Except (List Char) PyVal :=
  match v with
  | .str s => loads s
  | w => .ok w

/- The invoice-lines loop: for line in lines, if a description key is
present append its value (an exception aborts the whole try-body). -/
def descParts : List PyVal → Except (List Char) (List PyVal)
  | [] => .ok []
  | line :: rest =>
    match pyContains "description".data line with
    | .error e => .error e
    | .ok false => descParts rest
    | .ok true =>
      match pySubscriptStr line "description".data with
      | .error e => .error e
      | .ok d =>
        match descParts rest with
        | .error e => .error e
        | .ok tl => .ok (d :: tl)

def docDescParts (doc : PyVal) : Except (List Char) (List PyVal) :=
  match pyContains "invoiceLines".data doc with
  | .error e => .error e
  | .ok false => .ok []
  | .ok true =>
    match pySubscriptStr doc "invoiceLines".data with
    | .error e => .error e
    | .ok ls =>
      match pyIter ls with
      | .error e => .error e
      | .ok items => descParts items

def docParts (json_data : PyVal) : Except (List Char) (List PyVal) :=
  match pyContains "document".data json_data with
  | .error e => .error e
  | .ok false => .ok []
  | .ok true =>
    match pySubscriptStr json_data "document".data with
    | .error e => .error e
    | .ok dv =>
      match resolveDoc dv with
      | .error e => .error e
      | .ok doc => docDescParts doc

def namePart (json_data : PyVal) (key : List Char) :
    Except (List Char) (List PyVal) :=
  match pyContains key json_data with
  | .error e => .error e
  | .ok false => .ok []
  | .ok true =>
    match pySubscriptStr json_data key with
    | .error e => .error e
    | .ok v => .ok [v]

def idPart (json_data : PyVal) : Except (List Char) (List PyVal) :=
  match pyContains "internalId".data json_data with
  | .error e => .error e
  | .ok false => .ok []
  | .ok true =>
    match pySubscriptStr json_data "internalId".data with
    | .error e => .error e
    | .ok v => .ok [PyVal.str ("Internal ID: ".data ++ pyStr v)]

def assembleFrom (p1 p2 p3 p4 : Except (List Char) (List PyVal)) :
    Except (List Char) (List Char) :=
  match p1 with
  | .error e => .error e
  | .ok l1 =>
    match p2 with
    | .error e => .error e
    | .ok l2 =>
      match p3 with
      | .error e => .error e
      | .ok l3 =>
        match p4 with
        | .error e => .error e
        | .ok l4 => pyJoinE ['\n'] (l1 ++ l2 ++ l3 ++ l4)

/- The full text handed to advanced_po_extraction_v48, or the exception the
try-body raised. -/
def assembleText (json_data : PyVal) : Except (List Char) (List Char) :=
  assembleFrom (docParts json_data) (namePart json_data "issuerName".data)
    (namePart json_data "receiverName".data) (idPart json_data)

def extract_po_from_json (json_data : PyVal) : List Char × List Char × List Char :=
  match assembleText json_data with
  | .error e => ([], [], "extraction error: ".data ++ e)
  | .ok t => advanced_po_extraction_v48 t

/-
parse_json_fields (src/stream.py:297-367).  The 16 base fields always come
from dict.get with default ""; the document block runs under an inner try
whose partial results are kept; the PO triple is appended last.  A non-dict
argument raises AttributeError at the first .get, caught by the outer
except, which returns the single error entry.
-/

def baseFields (kv : List (List Char × PyVal)) : List (List Char × PyVal) :=
  [("filename".data, PyVal.str "JSON_DATA".data),
   ("STATUS".data, dictGetD kv "status".data (PyVal.str [])),
   ("uuid".data, dictGetD kv "uuid".data (PyVal.str [])),
   ("internalId".data, dictGetD kv "internalId".data (PyVal.str [])),
   ("typeName".data, dictGetD kv "typeName".data (PyVal.str [])),
   ("issuerId".data, dictGetD kv "issuerId".data (PyVal.str [])),
   ("issuerName".data, dictGetD kv "issuerName".data (PyVal.str [])),
   ("receiverId".data, dictGetD kv "receiverId".data (PyVal.str [])),
   ("receiverName".data, dictGetD kv "receiverName".data (PyVal.str [])),
   ("dateTimeIssued".data, dictGetD kv "dateTimeIssued".data (PyVal.str [])),
   ("dateTimeReceived".data, dictGetD kv "dateTimeReceived".data (PyVal.str [])),
   ("serviceDeliveryDate".data, dictGetD kv "serviceDeliveryDate".data (PyVal.str [])),
   ("totalSales".data, dictGetD kv "totalSales".data (PyVal.str [])),
   ("totalDiscount".data, dictGetD kv "totalDiscount".data (PyVal.str [])),
   ("netAmount".data, dictGetD kv "netAmount".data (PyVal.str [])),
   ("total".data, dictGetD kv "total".data (PyVal.str []))]

/- f"{addr.get('street','')} {addr.get('buildingNumber','')}
{addr.get('regionCity','')} {addr.get('governate','')}" -/
def addrChars (addr : PyVal) : Except (List Char) (List Char) :=
  match pyGet addr "street".data (PyVal.str []) with
  | .error e => .error e
  | .ok a =>
    match pyGet addr "buildingNumber".data (PyVal.str []) with
    | .error e => .error e
    | .ok b =>
      match pyGet addr "regionCity".data (PyVal.str []) with
      | .error e => .error e
      | .ok c =>
        match pyGet addr "governate".data (PyVal.str []) with
        | .error e => .error e
        | .ok d =>
          .ok (pyStr a ++ ' ' :: pyStr b ++ ' ' :: pyStr c ++ ' ' :: pyStr d)

/- if who in doc and 'address' in doc[who]: addr = doc[who]['address']; the
formatted line - doc is a dict here, so the first membership test is a key
lookup. -/
def addrBlock (d : List (List Char × PyVal)) (who : List Char) :
    Except (List Char) (Option (List Char)) :=
  match dictLookup d who with
  | none => .ok none
  | some iv =>
    match pyContains "address".data iv with
    | .error e => .error e
    | .ok false => .ok none
    | .ok true =>
      match pySubscriptStr iv "address".data with
      | .error e => .error e
      | .ok av =>
        match addrChars av with
        | .error e => .error e
        | .ok s => .ok (some s)

def descJoin (d : List (List Char × PyVal)) : Except (List Char) (List Char) :=
  match docDescParts (PyVal.dict d) with
  | .error e => .error e
  | .ok ps => pyJoinE "; ".data ps

/- The entries the inner try adds after the three doc.get fields; an
exception keeps what was stored so far. -/
def docTailFields (d : List (List Char × PyVal)) : List (List Char × PyVal) :=
  match descJoin d with
  | .error _ => []
  | .ok ds =>
    ("descriptions".data, PyVal.str ds) ::
    (match addrBlock d "issuer".data with
     | .error _ => []
     | .ok o1 =>
       (match o1 with
        | some a => [("issuer_address".data, PyVal.str a)]
        | none => []) ++
       (match addrBlock d "receiver".data with
        | .error _ => []
        | .ok o2 =>
          match o2 with
          | some a => [("receiver_address".data, PyVal.str a)]
          | none => []))

def docTryFields (dv : PyVal) : List (List Char × PyVal) :=
  match resolveDoc dv with
  | .error _ => []
  | .ok (.dict d) =>
    ("documentType".data, dictGetD d "documentType".data (PyVal.str [])) ::
    ("documentTypeVersion".data, dictGetD d "documentTypeVersion".data (PyVal.str [])) ::
    ("taxpayerActivityCode".data, dictGetD d "taxpayerActivityCode".data (PyVal.str [])) ::
    docTailFields d
  | .ok _ => []

def poFields (json_data : PyVal) : List (List Char × PyVal) :=
  [("PO number".data, PyVal.str (extract_po_from_json json_data).1),
   ("PO source".data, PyVal.str (extract_po_from_json json_data).2.1),
   ("PO note".data, PyVal.str (extract_po_from_json json_data).2.2)]

def documentBlock (kv : List (List Char × PyVal)) : List (List Char × PyVal) :=
  match dictLookup kv "document".data with
  | some dv => docTryFields dv
  | none => []

def parse_json_fields (json_data : PyVal) : List (List Char × PyVal) :=
  match json_data with
  | .dict kv => baseFields kv ++ documentBlock kv ++ poFields (.dict kv)
  | v =>
    [("error".data,
      PyVal.str (inQuotes (pyType v) ++ " object has no attribute ".data ++
        inQuotes "get".data))]

def presentKeys : List (List Char) :=
  ["filename".data, "STATUS".data, "uuid".data, "internalId".data,
   "typeName".data, "issuerId".data, "issuerName".data, "receiverId".data,
   "receiverName".data, "dateTimeIssued".data, "dateTimeReceived".data,
   "serviceDeliveryDate".data, "totalSales".data, "totalDiscount".data,
   "netAmount".data, "total".data,
   "PO number".data, "PO source".data, "PO note".data]

def optPart : Option (List Char) → List (List Char)
  | some s => [s]
  | none => []

/- A well-formed invoice line: a dict whose description value, when the key
is present, is a string (any other shape makes the loop or the final join
raise instead of assembling text). -/
def lineDescOkB : PyVal → Bool
  | .dict ld =>
    match dictLookup ld "description".data with
    | some (PyVal.str _) => true
    | some _ => false
    | none => true
  | _ => false

/- The descriptions the invoice-lines loop collects, in array order; lines
without a description key are skipped. -/
def lineDescs : List PyVal → List (List Char)
  | [] => []
  | PyVal.dict ld :: rest =>
    (match dictLookup ld "description".data with
     | some (PyVal.str s) => [s]
     | _ => []) ++ lineDescs rest
  | PyVal.null :: rest => lineDescs rest
  | PyVal.bool _ :: rest => lineDescs rest
  | PyVal.int _ :: rest => lineDescs rest
  | PyVal.float _ :: rest => lineDescs rest
  | PyVal.str _ :: rest => lineDescs rest
  | PyVal.list _ :: rest => lineDescs rest

/- A concrete invoice record with unrelated extra fields, a JSON-string
document carrying extra keys, one multi-key description line and one line
without a description. -/
def c7doc : List Char :=
  [Char.ofNat 123] ++ "\"documentType\": \"I\", \"invoiceLines\": [".data ++
  [Char.ofNat 123] ++ "\"description\": \"PO NUM: 7906\", \"amount\": 3".data ++
  [Char.ofNat 125] ++ ", ".data ++
  [Char.ofNat 123] ++ "\"qty\": 1".data ++
  [Char.ofNat 125] ++ "]".data ++
  [Char.ofNat 125]

def c7line1 : PyVal :=
  PyVal.dict [("description".data, PyVal.str "PO NUM: 7906".data),
              ("amount".data, PyVal.int 3)]

def c7line2 : PyVal := PyVal.dict [("qty".data, PyVal.int 1)]

def c7d : List (List Char × PyVal) :=
  [("documentType".data, PyVal.str "I".data),
   ("invoiceLines".data, PyVal.list [c7line1, c7line2])]

def c7kv : List (List Char × PyVal) :=
  [("uuid".data, PyVal.str "U-1".data),
   ("issuerName".data, PyVal.str "ACME Trading".data),
   ("document".data, PyVal.str c7doc),
   ("internalId".data, PyVal.int 55),
   ("totalSales".data, PyVal.int 9)]

theorem resolveDoc_str (s : List Char) : resolveDoc (PyVal.str s) = loads s := rfl

theorem docParts_cons_document (v : PyVal) (rest : List (List Char × PyVal)) :
    docParts (PyVal.dict (("document".data, v) :: rest)) =
      (match resolveDoc v with
       | .error e => .error e
       | .ok doc => docDescParts doc) := rfl

theorem parse_json_fields_dict (kv : List (List Char × PyVal)) :
    parse_json_fields (PyVal.dict kv) =
      baseFields kv ++ documentBlock kv ++ poFields (PyVal.dict kv) := rfl

theorem parse_json_fields_cons_document (v : PyVal) (rest : List (List Char × PyVal)) :
    parse_json_fields (PyVal.dict (("document".data, v) :: rest)) =
      baseFields (("document".data, v) :: rest) ++ docTryFields v ++
      poFields (PyVal.dict (("document".data, v) :: rest)) := rfl

/-- C10: if the document field is a string that is not valid JSON, the parse
failure aborts text assembly before issuerName, receiverName or internalId
are consulted, and extract_po_from_json returns the error triple
("", "", "extraction error: " + message), not "no PO found": the result does
not depend on the other fields of the record. -/
theorem C10_invalid_document_aborts (s e : List Char)
    (rest : List (List Char × PyVal)) (h : loads s = Except.error e) :
    extract_po_from_json (PyVal.dict (("document".data, PyVal.str s) :: rest)) =
      ([], [], "extraction error: ".data ++ e) := by
  have hd : docParts (PyVal.dict (("document".data, PyVal.str s) :: rest)) =
      Except.error e := by
    rw [docParts_cons_document, resolveDoc_str, h]
  simp only [extract_po_from_json, assembleText, hd]
  rfl

/-- Witness for C10 at the record with document the invalid JSON text "x". -/
theorem C10_invalid_document_aborts_witness :
    extract_po_from_json (PyVal.dict [("document".data, PyVal.str ['x'])]) =
      ([], [], "extraction error: Expecting value: char 0".data) :=
  C10_invalid_document_aborts ['x'] "Expecting value: char 0".data [] rfl

/-- C5: parse-if-string transparency.  If the document field holds a string
that json.loads parses to the object D, both parse_json_fields and
extract_po_from_json give the same result as on the record whose document
field is D itself. -/
theorem C5_parse_if_string (s : List Char) (dkv rest : List (List Char × PyVal))
    (h : loads s = Except.ok (PyVal.dict dkv)) :
    parse_json_fields (PyVal.dict (("document".data, PyVal.str s) :: rest)) =
      parse_json_fields (PyVal.dict (("document".data, PyVal.dict dkv) :: rest)) ∧
    extract_po_from_json (PyVal.dict (("document".data, PyVal.str s) :: rest)) =
      extract_po_from_json (PyVal.dict (("document".data, PyVal.dict dkv) :: rest)) := by
  have hres : resolveDoc (PyVal.str s) = resolveDoc (PyVal.dict dkv) := by
    rw [resolveDoc_str, h]; rfl
  have hdp : docParts (PyVal.dict (("document".data, PyVal.str s) :: rest)) =
      docParts (PyVal.dict (("document".data, PyVal.dict dkv) :: rest)) := by
    rw [docParts_cons_document, docParts_cons_document, hres]
  have hn1 : namePart (PyVal.dict (("document".data, PyVal.str s) :: rest)) "issuerName".data =
      namePart (PyVal.dict (("document".data, PyVal.dict dkv) :: rest)) "issuerName".data := rfl
  have hn2 : namePart (PyVal.dict (("document".data, PyVal.str s) :: rest)) "receiverName".data =
      namePart (PyVal.dict (("document".data, PyVal.dict dkv) :: rest)) "receiverName".data := rfl
  have hid : idPart (PyVal.dict (("document".data, PyVal.str s) :: rest)) =
      idPart (PyVal.dict (("document".data, PyVal.dict dkv) :: rest)) := rfl
  have hext : extract_po_from_json (PyVal.dict (("document".data, PyVal.str s) :: rest)) =
      extract_po_from_json (PyVal.dict (("document".data, PyVal.dict dkv) :: rest)) := by
    simp only [extract_po_from_json, assembleText, hdp, hn1, hn2, hid]
  refine ⟨?_, hext⟩
  have hbase : baseFields (("document".data, PyVal.str s) :: rest) =
      baseFields (("document".data, PyVal.dict dkv) :: rest) := rfl
  have hdoc : docTryFields (PyVal.str s) = docTryFields (PyVal.dict dkv) := by
    simp only [docTryFields, hres]
  have hpo : poFields (PyVal.dict (("document".data, PyVal.str s) :: rest)) =
      poFields (PyVal.dict (("document".data, PyVal.dict dkv) :: rest)) := by
    simp only [poFields, hext]
  rw [parse_json_fields_cons_document, parse_json_fields_cons_document,
    hbase, hdoc, hpo]

/-- Witness for C5 at a record whose document field is the two-character
JSON text of the empty object. -/
theorem C5_parse_if_string_witness :
    parse_json_fields (PyVal.dict [("document".data,
        PyVal.str [Char.ofNat 123, Char.ofNat 125])]) =
      parse_json_fields (PyVal.dict [("document".data, PyVal.dict [])]) ∧
    extract_po_from_json (PyVal.dict [("document".data,
        PyVal.str [Char.ofNat 123, Char.ofNat 125])]) =
      extract_po_from_json (PyVal.dict [("document".data, PyVal.dict [])]) :=
  C5_parse_if_string [Char.ofNat 123, Char.ofNat 125] [] [] rfl

theorem dictLookup_append (a b : List (List Char × PyVal)) (k : List Char) :
    dictLookup (a ++ b) k =
      (match dictLookup a k with
       | some v => some v
       | none => dictLookup b k) := by
  induction a with
  | nil => rfl
  | cons p r ih =>
    obtain ⟨k0, v0⟩ := p
    by_cases hk : k0 = k
    · simp [dictLookup, hk]
    · simp only [List.cons_append, dictLookup, if_neg hk]
      exact ih

theorem dictLookup_eq_none {l : List (List Char × PyVal)} {k : List Char}
    (h : ∀ p ∈ l, ¬ p.1 = k) : dictLookup l k = none := by
  induction l with
  | nil => rfl
  | cons p r ih =>
    obtain ⟨k0, v0⟩ := p
    have h0 : ¬ k0 = k := h (k0, v0) (List.mem_cons_self _ _)
    simp only [dictLookup, if_neg h0]
    exact ih (fun q hq => h q (List.mem_cons_of_mem _ hq))

theorem docTailFields_keys (d : List (List Char × PyVal)) :
    ∀ p ∈ docTailFields d,
      p.1 ∈ ["descriptions".data, "issuer_address".data, "receiver_address".data] := by
  intro p hp
  unfold docTailFields at hp
  cases h1 : descJoin d with
  | error e => rw [h1] at hp; simp at hp
  | ok ds =>
    rw [h1] at hp
    rcases List.mem_cons.mp hp with h | h
    · rw [h]; simp
    · cases h2 : addrBlock d "issuer".data with
      | error e => rw [h2] at h; simp at h
      | ok o1 =>
        rw [h2] at h
        rcases List.mem_append.mp h with h | h
        · cases o1 with
          | none => simp at h
          | some a =>
            simp only [List.mem_singleton] at h
            rw [h]; simp
        · cases h3 : addrBlock d "receiver".data with
          | error e => rw [h3] at h; simp at h
          | ok o2 =>
            rw [h3] at h
            cases o2 with
            | none => simp at h
            | some a =>
              simp only [List.mem_singleton] at h
              rw [h]; simp

theorem docTryFields_keys (dv : PyVal) :
    ∀ p ∈ docTryFields dv,
      p.1 ∈ ["documentType".data, "documentTypeVersion".data,
             "taxpayerActivityCode".data, "descriptions".data,
             "issuer_address".data, "receiver_address".data] := by
  intro p hp
  unfold docTryFields at hp
  cases hr : resolveDoc dv with
  | error e => rw [hr] at hp; simp at hp
  | ok doc =>
    rw [hr] at hp
    cases doc with
    | dict d =>
      rcases List.mem_cons.mp hp with h | h
      · rw [h]; simp
      · rcases List.mem_cons.mp h with h | h
        · rw [h]; simp
        · rcases List.mem_cons.mp h with h | h
          · rw [h]; simp
          · have h3 := docTailFields_keys d p h
            simp only [List.mem_cons, List.not_mem_nil, or_false] at h3
            rcases h3 with h3 | h3 | h3 <;> rw [h3] <;> simp
    | null => simp at hp
    | bool b => simp at hp
    | int n => simp at hp
    | float t => simp at hp
    | str s => simp at hp
    | list l => simp at hp

theorem documentBlock_keys (kv : List (List Char × PyVal)) :
    ∀ p ∈ documentBlock kv,
      p.1 ∈ ["documentType".data, "documentTypeVersion".data,
             "taxpayerActivityCode".data, "descriptions".data,
             "issuer_address".data, "receiver_address".data] := by
  intro p hp
  unfold documentBlock at hp
  cases hdoc : dictLookup kv "document".data with
  | none => rw [hdoc] at hp; simp at hp
  | some dv => rw [hdoc] at hp; exact docTryFields_keys dv p hp

/-- C6: on any record that is a JSON object - in particular one whose
document value is a string that is not valid JSON - parse_json_fields
returns a mapping (never the outer-except error entry) that always carries
the 16 base keys and the three PO keys, with the PO triple string-valued.
The six document-derived keys and the string-ness of the .get-derived values
are NOT guaranteed, so the spec's list of 25 always-present all-string keys
is too strong. -/
theorem C6_fields_total (kv : List (List Char × PyVal)) :
    (∀ k ∈ presentKeys,
      (dictLookup (parse_json_fields (PyVal.dict kv)) k).isSome = true) ∧
    dictLookup (parse_json_fields (PyVal.dict kv)) "PO number".data =
      some (PyVal.str (extract_po_from_json (PyVal.dict kv)).1) ∧
    dictLookup (parse_json_fields (PyVal.dict kv)) "PO source".data =
      some (PyVal.str (extract_po_from_json (PyVal.dict kv)).2.1) ∧
    dictLookup (parse_json_fields (PyVal.dict kv)) "PO note".data =
      some (PyVal.str (extract_po_from_json (PyVal.dict kv)).2.2) ∧
    dictLookup (parse_json_fields (PyVal.dict kv)) "error".data = none := by
  have hmid : ∀ k, k ∈ ["PO number".data, "PO source".data,
      "PO note".data, "error".data] →
      dictLookup (documentBlock kv) k = none := by
    intro k hk
    apply dictLookup_eq_none
    intro p hp
    have h6 := documentBlock_keys kv p hp
    simp only [List.mem_cons, List.not_mem_nil, or_false] at h6 hk
    rcases h6 with h6 | h6 | h6 | h6 | h6 | h6 <;>
      rcases hk with hk | hk | hk | hk <;> rw [h6, hk] <;> decide
  have hpo1 : dictLookup (parse_json_fields (PyVal.dict kv)) "PO number".data =
      some (PyVal.str (extract_po_from_json (PyVal.dict kv)).1) := by
    rw [parse_json_fields_dict, dictLookup_append, dictLookup_append,
      show dictLookup (baseFields kv) "PO number".data = none from rfl,
      hmid "PO number".data (by simp)]
    rfl
  have hpo2 : dictLookup (parse_json_fields (PyVal.dict kv)) "PO source".data =
      some (PyVal.str (extract_po_from_json (PyVal.dict kv)).2.1) := by
    rw [parse_json_fields_dict, dictLookup_append, dictLookup_append,
      show dictLookup (baseFields kv) "PO source".data = none from rfl,
      hmid "PO source".data (by simp)]
    rfl
  have hpo3 : dictLookup (parse_json_fields (PyVal.dict kv)) "PO note".data =
      some (PyVal.str (extract_po_from_json (PyVal.dict kv)).2.2) := by
    rw [parse_json_fields_dict, dictLookup_append, dictLookup_append,
      show dictLookup (baseFields kv) "PO note".data = none from rfl,
      hmid "PO note".data (by simp)]
    rfl
  have herr : dictLookup (parse_json_fields (PyVal.dict kv)) "error".data = none := by
    rw [parse_json_fields_dict, dictLookup_append, dictLookup_append,
      show dictLookup (baseFields kv) "error".data = none from rfl,
      hmid "error".data (by simp)]
    rfl
  refine ⟨?_, hpo1, hpo2, hpo3, herr⟩
  intro k hk
  simp only [presentKeys, List.mem_cons, List.not_mem_nil, or_false] at hk
  rcases hk with hk | hk | hk | hk | hk | hk | hk | hk | hk | hk | hk | hk |
    hk | hk | hk | hk | hk | hk | hk <;> subst hk <;>
    first
      | rfl
      | (rw [hpo1]; rfl)
      | (rw [hpo2]; rfl)
      | (rw [hpo3]; rfl)

/-- Counterexample to C6 as stated: on the record with document the invalid
JSON text consisting of one opening brace and totalSales the number 5, the
returned mapping has no documentType key at all, and its totalSales value is
the integer 5, not a string. -/
theorem C6_counterexample :
    dictLookup (parse_json_fields (PyVal.dict
        [("document".data, PyVal.str [Char.ofNat 123]),
         ("totalSales".data, PyVal.int 5)])) "documentType".data = none ∧
    dictLookup (parse_json_fields (PyVal.dict
        [("document".data, PyVal.str [Char.ofNat 123]),
         ("totalSales".data, PyVal.int 5)])) "totalSales".data =
      some (PyVal.int 5) ∧
    Option.map isStrVal
      (dictLookup (parse_json_fields (PyVal.dict
        [("document".data, PyVal.str [Char.ofNat 123]),
         ("totalSales".data, PyVal.int 5)])) "totalSales".data) = some false := by
  exact ⟨rfl, rfl, rfl⟩

theorem dictAny_lookup (kvs : List (List Char × PyVal)) (k : List Char) :
    (kvs.any fun p => decide (p.1 = k)) = (dictLookup kvs k).isSome := by
  induction kvs with
  | nil => rfl
  | cons p r ih =>
    obtain ⟨k0, v0⟩ := p
    by_cases h : k0 = k
    · simp [dictLookup, h]
    · simp [dictLookup, h, ih]

theorem pyContains_dict (k : List Char) (kvs : List (List Char × PyVal)) :
    pyContains k (PyVal.dict kvs) = .ok ((dictLookup kvs k).isSome) := by
  simp only [pyContains, dictAny_lookup]

theorem pySubscript_dict (kvs : List (List Char × PyVal)) (k : List Char)
    (v : PyVal) (h : dictLookup kvs k = some v) :
    pySubscriptStr (PyVal.dict kvs) k = .ok v := by
  simp only [pySubscriptStr, h]

theorem namePart_of (kvs : List (List Char × PyVal)) (key : List Char)
    (o : Option (List Char)) (h : dictLookup kvs key = Option.map PyVal.str o) :
    namePart (PyVal.dict kvs) key = Except.ok ((optPart o).map PyVal.str) := by
  cases o with
  | none =>
    have h' : dictLookup kvs key = none := h
    simp only [namePart, pyContains_dict, h', Option.isSome_none, optPart,
      List.map_nil]
  | some s =>
    have h' : dictLookup kvs key = some (PyVal.str s) := h
    simp only [namePart, pyContains_dict, h', Option.isSome_some,
      pySubscript_dict kvs key (PyVal.str s) h', optPart, List.map_cons,
      List.map_nil]

theorem idPart_of (kvs : List (List Char × PyVal)) (o : Option PyVal)
    (h : dictLookup kvs "internalId".data = o) :
    idPart (PyVal.dict kvs) =
      Except.ok ((optPart (o.map (fun v => "Internal ID: ".data ++ pyStr v))).map
        PyVal.str) := by
  cases o with
  | none =>
    simp only [namePart, idPart, pyContains_dict, h, Option.isSome_none,
      Option.map_none', optPart, List.map_nil]
  | some v =>
    simp only [idPart, pyContains_dict, h, Option.isSome_some,
      pySubscript_dict kvs "internalId".data v h, Option.map_some', optPart,
      List.map_cons, List.map_nil]

theorem descParts_of_ok : ∀ lines : List PyVal,
    lines.all lineDescOkB = true →
    descParts lines = Except.ok ((lineDescs lines).map PyVal.str) := by
  intro lines
  induction lines with
  | nil => intro _; rfl
  | cons line rest ih =>
    intro h
    rw [List.all_cons, Bool.and_eq_true] at h
    obtain ⟨h1, h2⟩ := h
    cases line with
    | dict ld =>
      cases hld : dictLookup ld "description".data with
      | none =>
        have hc : pyContains "description".data (PyVal.dict ld) = .ok false := by
          rw [pyContains_dict, hld]; rfl
        simp only [descParts, hc, lineDescs, hld, ih h2, List.nil_append]
      | some v =>
        cases v with
        | str s =>
          have hc : pyContains "description".data (PyVal.dict ld) = .ok true := by
            rw [pyContains_dict, hld]; rfl
          have hs : pySubscriptStr (PyVal.dict ld) "description".data =
              .ok (PyVal.str s) := pySubscript_dict _ _ _ hld
          simp only [descParts, hc, hs, ih h2, lineDescs, hld,
            List.singleton_append, List.map_cons]
        | null => simp [lineDescOkB, hld] at h1
        | bool b => simp [lineDescOkB, hld] at h1
        | int n => simp [lineDescOkB, hld] at h1
        | float t => simp [lineDescOkB, hld] at h1
        | list l => simp [lineDescOkB, hld] at h1
        | dict d2 => simp [lineDescOkB, hld] at h1
    | null => simp [lineDescOkB] at h1
    | bool b => simp [lineDescOkB] at h1
    | int n => simp [lineDescOkB] at h1
    | float t => simp [lineDescOkB] at h1
    | str s => simp [lineDescOkB] at h1
    | list l => simp [lineDescOkB] at h1

theorem docDescParts_of (d : List (List Char × PyVal)) (linesOpt : Option (List PyVal))
    (hlines : dictLookup d "invoiceLines".data = Option.map PyVal.list linesOpt)
    (hok : (linesOpt.getD []).all lineDescOkB = true) :
    docDescParts (PyVal.dict d) =
      Except.ok ((lineDescs (linesOpt.getD [])).map PyVal.str) := by
  cases linesOpt with
  | none =>
    have h' : dictLookup d "invoiceLines".data = none := hlines
    have hc : pyContains "invoiceLines".data (PyVal.dict d) = .ok false := by
      rw [pyContains_dict, h']; rfl
    simp only [docDescParts, hc]
    rfl
  | some lines =>
    have h' : dictLookup d "invoiceLines".data = some (PyVal.list lines) := hlines
    have hc : pyContains "invoiceLines".data (PyVal.dict d) = .ok true := by
      rw [pyContains_dict, h']; rfl
    have hs : pySubscriptStr (PyVal.dict d) "invoiceLines".data =
        .ok (PyVal.list lines) := pySubscript_dict _ _ _ h'
    simp only [docDescParts, hc, hs, pyIter]
    exact descParts_of_ok lines hok

theorem docParts_of (kv : List (List Char × PyVal)) (dv doc : PyVal)
    (hdocv : dictLookup kv "document".data = some dv)
    (hdoc : resolveDoc dv = Except.ok doc) :
    docParts (PyVal.dict kv) = docDescParts doc := by
  have hc : pyContains "document".data (PyVal.dict kv) = .ok true := by
    rw [pyContains_dict, hdocv]; rfl
  have hs : pySubscriptStr (PyVal.dict kv) "document".data = .ok dv :=
    pySubscript_dict _ _ _ hdocv
  simp only [docParts, hc, hs, hdoc]

theorem pyJoin_strs (sep : List Char) : ∀ (i : Nat) (l : List (List Char)),
    pyJoinGo sep i (l.map PyVal.str) = Except.ok (strJoin sep l) := by
  intro i l
  induction l generalizing i with
  | nil => rfl
  | cons x t ih =>
    cases t with
    | nil => rfl
    | cons y s =>
      have h : pyJoinGo sep i (List.map PyVal.str (x :: y :: s)) =
          (match pyJoinGo sep (i + 1) (List.map PyVal.str (y :: s)) with
           | .error e => Except.error e
           | .ok t2 => Except.ok (x ++ sep ++ t2)) := rfl
      rw [h, ih (i + 1)]
      rfl

theorem assembleFrom_ok (l1 l2 l3 l4 : List PyVal) :
    assembleFrom (Except.ok l1) (Except.ok l2) (Except.ok l3) (Except.ok l4) =
      pyJoinE ['\n'] (l1 ++ l2 ++ l3 ++ l4) := rfl

theorem extract_componentwise (j : PyVal) (l1 l2 l3 l4 : List (List Char))
    (h1 : docParts j = Except.ok (l1.map PyVal.str))
    (h2 : namePart j "issuerName".data = Except.ok (l2.map PyVal.str))
    (h3 : namePart j "receiverName".data = Except.ok (l3.map PyVal.str))
    (h4 : idPart j = Except.ok (l4.map PyVal.str)) :
    extract_po_from_json j =
      advanced_po_extraction_v48 (strJoin ['\n'] (l1 ++ l2 ++ l3 ++ l4)) := by
  have hass : assembleText j =
      Except.ok (strJoin ['\n'] (l1 ++ l2 ++ l3 ++ l4)) := by
    simp only [assembleText]
    rw [h1, h2, h3, h4, assembleFrom_ok]
    rw [show (l1.map PyVal.str ++ l2.map PyVal.str ++ l3.map PyVal.str ++
        l4.map PyVal.str) = (l1 ++ l2 ++ l3 ++ l4).map PyVal.str by
      simp [List.map_append]]
    exact pyJoin_strs ['\n'] 0 (l1 ++ l2 ++ l3 ++ l4)
  simp only [extract_po_from_json, hass]

/-- C7: for every record whose document field resolves (directly or through
json.loads) to an object - the record may carry any other fields, the object
any other keys - with invoiceLines absent or a list of dicts whose
descriptions, where present, are strings, and with issuerName/receiverName
absent or strings, the text handed to advanced_po_extraction_v48 is the
newline-join of: each description in array order (lines without one are
skipped), then issuerName, then receiverName, then "Internal ID: " +
str(internalId).  A missing field is omitted, but contrary to the spec a
present-but-empty field is NOT omitted: it contributes an empty part (a
blank line) to the join. -/
theorem C7_text_assembly (kv d : List (List Char × PyVal)) (dv : PyVal)
    (linesOpt : Option (List PyVal)) (iss rcv : Option (List Char)) (iid : Option PyVal)
    (hdocv : dictLookup kv "document".data = some dv)
    (hdoc : resolveDoc dv = Except.ok (PyVal.dict d))
    (hlines : dictLookup d "invoiceLines".data = Option.map PyVal.list linesOpt)
    (hok : (linesOpt.getD []).all lineDescOkB = true)
    (hiss : dictLookup kv "issuerName".data = Option.map PyVal.str iss)
    (hrcv : dictLookup kv "receiverName".data = Option.map PyVal.str rcv)
    (hiid : dictLookup kv "internalId".data = iid) :
    extract_po_from_json (PyVal.dict kv) =
      advanced_po_extraction_v48 (strJoin ['\n']
        (lineDescs (linesOpt.getD []) ++ optPart iss ++ optPart rcv ++
          optPart (iid.map (fun v => "Internal ID: ".data ++ pyStr v)))) := by
  refine extract_componentwise _ _ _ _ _ ?_ ?_ ?_ ?_
  · rw [docParts_of kv dv (PyVal.dict d) hdocv hdoc]
    exact docDescParts_of d linesOpt hlines hok
  · exact namePart_of kv "issuerName".data iss hiss
  · exact namePart_of kv "receiverName".data rcv hrcv
  · exact idPart_of kv iid hiid

/-- Witness for C7 at a record with unrelated extra fields, a JSON-string
document carrying an extra key, one multi-key description line and one line
without a description. -/
theorem C7_text_assembly_witness :
    extract_po_from_json (PyVal.dict c7kv) =
      advanced_po_extraction_v48 (strJoin ['\n']
        (lineDescs [c7line1, c7line2] ++ optPart (some "ACME Trading".data) ++
          optPart none ++
          optPart (Option.map (fun v => "Internal ID: ".data ++ pyStr v)
            (some (PyVal.int 55))))) :=
  C7_text_assembly c7kv c7d (PyVal.str c7doc) (some [c7line1, c7line2])
    (some "ACME Trading".data) none (some (PyVal.int 55))
    rfl rfl rfl rfl rfl rfl rfl

/-- Counterexample to the omission clause of C7: with document an empty
object, issuerName present but empty and internalId "7906", the assembled
text starts with a blank line for the empty issuerName instead of omitting
it. -/
theorem C7_counterexample :
    assembleText (PyVal.dict [("document".data, PyVal.dict []),
        ("issuerName".data, PyVal.str []),
        ("internalId".data, PyVal.str "7906".data)]) =
      Except.ok ('\n' :: "Internal ID: 7906".data) ∧
    extract_po_from_json (PyVal.dict [("document".data, PyVal.dict []),
        ("issuerName".data, PyVal.str []),
        ("internalId".data, PyVal.str "7906".data)]) =
      advanced_po_extraction_v48 ('\n' :: "Internal ID: 7906".data) ∧
    ('\n' :: "Internal ID: 7906".data) ≠ "Internal ID: 7906".data :=
  ⟨rfl, rfl, by decide⟩
